import Mathlib

set_option maxHeartbeats 1000000
set_option maxRecDepth 4096

/-!
Verification of the kanata TCP/UDP wire protocol crate
(src/tcp_protocol/src/lib.rs) against its specification.

The crate defines three serde-derived message enums (ServerMessage,
ClientMessage, ServerResponse) plus the FakeKeyActionMessage sub-enum,
encodes them with serde_json::to_vec followed by one appended newline
byte, and decodes ClientMessage with serde_json::from_str via FromStr.

The embedding below models the wire layer at the level of JSON syntax
trees plus the exact serde_json text grammar:

* Json, JArr, JObj are JSON syntax trees.  Objects are ordered
  association lists, exactly what the serde_json streaming deserializer
  sees on the wire before any map container is built, so duplicate keys
  and key order are representable.  Numbers are kept at the decimal
  literal level, as a sign, integer part, fraction digits and exponent.
  Integer literals, the only numbers the protocol itself produces, are
  modelled exactly; float literals are carried syntactically.  The model
  admits integer literals of any size while serde_json tops out at the
  f64 range when falling back from u64/i64; no property below depends on
  that fringe, and the Rust-constructible values correspond to a subset
  of the modelled ones.
* renderJson mirrors the serde_json compact serializer, including its
  string escaping table, so the byte-level claims can be checked
  exactly.  Bytes are modelled as characters; every byte the protocol
  compares against (the newline terminator, quotes, braces) is ASCII,
  where the two views coincide.
* parseVal mirrors the serde_json streaming parser, including its
  documented recursion limit: the deserializer starts with
  remaining_depth = 128 and errors when entering a container makes it
  reach zero, so nesting deeper than 127 containers is a decode error.
* The per-type encode/decode functions mirror what the serde derives in
  lib.rs generate: externally tagged representation for ServerMessage,
  ClientMessage and FakeKeyActionMessage, and the internally tagged
  representation selected by the serde tag = "status" attribute for
  ServerResponse.  Unknown fields are skipped (no deny_unknown_fields in
  the source), duplicate fields are errors, missing Option fields decode
  to None, and the skip_serializing_if attributes on session_id make the
  encoder omit the key when the value is None.  serde additionally
  accepts a sequence form for struct variants; the model covers the map
  form, and no property below depends on the sequence form, so
  completeness statements are phrased over map-form inputs only.
-/

/-! JSON syntax trees: the values seen on the wire.  Objects are ordered
association lists of key/value pairs (duplicates representable), numbers
are decimal literals given by sign, integer part, fraction digits and
optional exponent. -/
mutual
inductive Json where
  | null : Json
  | bool (b : Bool) : Json
  | num (neg : Bool) (ip : Nat) (frac : List (Fin 10)) (ex : Option Int) : Json
  | str (s : String) : Json
  | arr (elems : JArr) : Json
  | obj (mems : JObj) : Json
inductive JArr where
  | nil : JArr
  | cons (v : Json) (tl : JArr) : JArr
inductive JObj where
  | nil : JObj
  | cons (k : String) (v : Json) (tl : JObj) : JObj
end

/-! Build a JSON array from a list of values. -/
def jarrOf : List Json → JArr
  | [] => .nil
  | v :: tl => .cons v (jarrOf tl)

/-- Build a JSON object from a list of key/value pairs, keeping order. -/
def jobjOf : List (String × Json) → JObj
  | [] => .nil
  | (k, v) :: tl => .cons k v (jobjOf tl)

/-- The keys of a JSON object, in order. -/
def jkeys : JObj → List String
  | .nil => []
  | .cons k _ tl => k :: jkeys tl

/-- All values bound to a given key in an object, in order.  The serde
map visitor reduces to this view: a declared field must occur exactly
once, zero occurrences of an Option field mean None, and a second
occurrence is a duplicate-field error. -/
def fieldOcc : JObj → String → List Json
  | .nil, _ => []
  | .cons k v tl, f => if k = f then v :: fieldOcc tl f else fieldOcc tl f

/-- Append one key/value pair at the end of an object. -/
def jappend : JObj → String → Json → JObj
  | .nil, k, v => .cons k v .nil
  | .cons k0 v0 tl, k, v => .cons k0 v0 (jappend tl k v)

/-- Drop every pair with the given key.  Models how the internally
tagged deserializer strips the tag field before decoding the variant
content. -/
def removeKey : JObj → String → JObj
  | .nil, _ => .nil
  | .cons k v tl, f => if k = f then removeKey tl f else .cons k v (removeKey tl f)

/-- The character of a decimal digit, as the serializer prints it. -/
def digChar (d : Nat) : Char := Char.ofNat (48 + d)

/-- Decimal digit characters of a natural number, most significant
first, as the serde_json integer formatter prints them. -/
def natDigits (n : Nat) : List Char :=
  if n = 0 then ['0'] else (Nat.digits 10 n).reverse.map digChar

/-- Decimal characters of an integer, with a leading minus sign when
negative. -/
def intChars (i : Int) : List Char :=
  (if i < 0 then ['-'] else []) ++ natDigits i.natAbs

/-- Lowercase hex digit character, as serde_json writes \u escapes. -/
def hexDigChar (d : Nat) : Char :=
  if d < 10 then Char.ofNat (48 + d) else Char.ofNat (87 + d)

/-- The serde_json string escaping table: quote and backslash get a
two-character escape, the five control characters with short escapes use
them, every other control character below 0x20 becomes a \u00XX escape,
and all remaining characters are written raw. -/
def escapeChar (c : Char) : List Char :=
  if c = '"' then ['\\', '"']
  else if c = '\\' then ['\\', '\\']
  else if c = '\x08' then ['\\', 'b']
  else if c = '\x0C' then ['\\', 'f']
  else if c = '\n' then ['\\', 'n']
  else if c = '\r' then ['\\', 'r']
  else if c = '\t' then ['\\', 't']
  else if c.toNat < 32 then
    ['\\', 'u', '0', '0', hexDigChar (c.toNat / 16), hexDigChar (c.toNat % 16)]
  else [c]

/-- Escape a whole character sequence. -/
def escapeChars (l : List Char) : List Char := (l.map escapeChar).flatten

/-- A JSON string literal: quote, escaped contents, quote. -/
def strLit (s : String) : List Char := '"' :: escapeChars s.data ++ ['"']

/-- The fraction part of a number literal: nothing, or a dot followed
by the fraction digits. -/
def fracChars : List (Fin 10) → List Char
  | [] => []
  | fs => '.' :: fs.map (fun d => digChar d.val)

/-- The exponent part of a number literal: nothing, or letter e
followed by the exponent integer. -/
def expChars : Option Int → List Char
  | none => []
  | some e => 'e' :: intChars e

/-- Render a number literal: sign, integer digits, optional fraction
digits after a dot, optional exponent after letter e. -/
def renderNum (neg : Bool) (ip : Nat) (frac : List (Fin 10)) (ex : Option Int) : List Char :=
  (if neg then ['-'] else []) ++ natDigits ip ++ fracChars frac ++ expChars ex

/-! The compact serde_json serializer: no whitespace, separators comma
and colon, object and array brackets, the escaping table above.  This is
the text serde_json::to_vec writes (as UTF-8 bytes). -/
mutual
def renderJson : Json → List Char
  | .null => 'n' :: 'u' :: "ll".data
  | .bool true => 't' :: 'r' :: "ue".data
  | .bool false => 'f' :: 'a' :: "lse".data
  | .num neg ip frac ex => renderNum neg ip frac ex
  | .str s => strLit s
  | .arr a => '[' :: (renderArr a ++ [']'])
  | .obj m => '{' :: (renderObj m ++ ['}'])
def renderArr : JArr → List Char
  | .nil => []
  | .cons v .nil => renderJson v
  | .cons v (.cons w tw) => renderJson v ++ ',' :: renderArr (.cons w tw)
def renderObj : JObj → List Char
  | .nil => []
  | .cons k v .nil => strLit k ++ ':' :: renderJson v
  | .cons k v (.cons k2 v2 t2) =>
      strLit k ++ ':' :: renderJson v ++ ',' :: renderObj (.cons k2 v2 t2)
end

/-! Node-count weight of a JSON tree, used as parser fuel bound. -/
mutual
def wVal : Json → Nat
  | .null => 1
  | .bool _ => 1
  | .num _ _ _ _ => 1
  | .str _ => 1
  | .arr a => 1 + wArr a
  | .obj m => 1 + wObj m
def wArr : JArr → Nat
  | .nil => 0
  | .cons v tl => 1 + wVal v + wArr tl
def wObj : JObj → Nat
  | .nil => 0
  | .cons _ v tl => 1 + wVal v + wObj tl
end

/-! Container nesting depth of a JSON tree.  serde_json accepts a
document exactly when this depth is at most 127 (the deserializer starts
at remaining depth 128 and errors when entering a container reaches
zero). -/
mutual
def dVal : Json → Nat
  | .null => 0
  | .bool _ => 0
  | .num _ _ _ _ => 0
  | .str _ => 0
  | .arr a => 1 + dArr a
  | .obj m => 1 + dObj m
def dArr : JArr → Nat
  | .nil => 0
  | .cons v tl => max (dVal v) (dArr tl)
def dObj : JObj → Nat
  | .nil => 0
  | .cons _ v tl => max (dVal v) (dObj tl)
end

/-! The JSON whitespace characters: space, tab, line feed, carriage
return. -/
def isWsB (c : Char) : Bool := c == ' ' || c == '\t' || c == '\n' || c == '\r'

/-- ASCII decimal digit test. -/
def isDigB (c : Char) : Bool := 48 ≤ c.toNat && c.toNat ≤ 57

/-- Skip leading whitespace, as the streaming parser does between
tokens. -/
def skipWs (cs : List Char) : List Char := cs.dropWhile isWsB

/-- Value of one hex digit character, upper or lower case. -/
def hexDigVal (c : Char) : Option Nat :=
  if 48 ≤ c.toNat ∧ c.toNat ≤ 57 then some (c.toNat - 48)
  else if 97 ≤ c.toNat ∧ c.toNat ≤ 102 then some (c.toNat - 87)
  else if 65 ≤ c.toNat ∧ c.toNat ≤ 70 then some (c.toNat - 55)
  else none

/-- Value of a four-digit hex escape. -/
def hex4 (h1 h2 h3 h4 : Char) : Option Nat :=
  match hexDigVal h1, hexDigVal h2, hexDigVal h3, hexDigVal h4 with
  | some a, some b, some c, some d => some (((a * 16 + b) * 16 + c) * 16 + d)
  | _, _, _, _ => none

/-- Prepend one decoded character to a string-parse result. -/
def strCons (c : Char) (o : Option (String × List Char)) : Option (String × List Char) :=
  o.map (fun p => (String.mk (c :: p.1.data), p.2))

/-!
Parse the body of a JSON string literal after the opening quote, up to
and including the closing quote, mirroring serde_json: the eight short
escapes, \u escapes with surrogate-pair handling (a lone surrogate is
an error), raw control characters below 0x20 are errors, everything
else is taken literally.  parseEsc handles the character after a
backslash, parseU the four hex digits after letter u, and parseU2 a low
surrogate escape following a high surrogate.  The fuel argument makes
the recursion structural; every recursive step consumes at least one
input character, so fuel exceeding the input length never runs out.
-/
mutual
def parseStrBody : Nat → List Char → Option (String × List Char)
  | 0, _ => none
  | _ + 1, [] => none
  | fuel + 1, c :: r =>
    if c = '"' then some ("", r)
    else if c = '\\' then parseEsc fuel r
    else if c.toNat < 32 then none
    else strCons c (parseStrBody fuel r)
def parseEsc : Nat → List Char → Option (String × List Char)
  | 0, _ => none
  | _ + 1, [] => none
  | fuel + 1, d :: r2 =>
    if d = '"' then strCons '"' (parseStrBody fuel r2)
    else if d = '\\' then strCons '\\' (parseStrBody fuel r2)
    else if d = '/' then strCons '/' (parseStrBody fuel r2)
    else if d = 'b' then strCons '\x08' (parseStrBody fuel r2)
    else if d = 'f' then strCons '\x0C' (parseStrBody fuel r2)
    else if d = 'n' then strCons '\n' (parseStrBody fuel r2)
    else if d = 'r' then strCons '\r' (parseStrBody fuel r2)
    else if d = 't' then strCons '\t' (parseStrBody fuel r2)
    else if d = 'u' then parseU fuel r2
    else none
def parseU : Nat → List Char → Option (String × List Char)
  | 0, _ => none
  | fuel + 1, h1 :: h2 :: h3 :: h4 :: r3 =>
    (match hex4 h1 h2 h3 h4 with
     | none => none
     | some hv =>
       if hv < 55296 ∨ 57344 ≤ hv then strCons (Char.ofNat hv) (parseStrBody fuel r3)
       else if hv < 56320 then parseU2 fuel hv r3
       else none)
  | _ + 1, _ => none
def parseU2 : Nat → Nat → List Char → Option (String × List Char)
  | 0, _, _ => none
  | fuel + 1, hv, a :: b :: g1 :: g2 :: g3 :: g4 :: r4 =>
    if a = '\\' ∧ b = 'u' then
      (match hex4 g1 g2 g3 g4 with
       | none => none
       | some lv =>
         if 56320 ≤ lv ∧ lv < 57344 then
           strCons (Char.ofNat (65536 + (hv - 55296) * 1024 + (lv - 56320)))
             (parseStrBody fuel r4)
         else none)
    else none
  | _ + 1, _, _ => none
end

/-- Numeric value of a digit-character sequence, most significant
first. -/
def digitsVal (ds : List Char) : Nat :=
  Nat.ofDigits 10 ((ds.map (fun c => c.toNat - 48)).reverse)

/-- Fraction digit of a digit character. -/
def digFin (c : Char) : Fin 10 := ⟨(c.toNat - 48) % 10, Nat.mod_lt _ (by omega)⟩

/-- The optional leading minus sign of a number literal. -/
def parseSign (cs : List Char) : Bool × List Char :=
  if cs.head? = some '-' then (true, cs.tail) else (false, cs)

/-- A maximal run of digits and the remaining input. -/
def parseDigits (cs : List Char) : List Char × List Char :=
  (cs.takeWhile isDigB, cs.dropWhile isDigB)

/-- The optional fraction part: a dot followed by at least one digit. -/
def parseFrac (cs : List Char) : Option (List (Fin 10) × List Char) :=
  if cs.head? = some '.' then
    (let fs := cs.tail.takeWhile isDigB
     if fs = [] then none else some (fs.map digFin, cs.tail.dropWhile isDigB))
  else some ([], cs)

/-- The optional exponent part: letter e or E, an optional sign, at
least one digit. -/
def parseExp (cs : List Char) : Option (Option Int × List Char) :=
  if cs.head? = some 'e' ∨ cs.head? = some 'E' then
    (let p2 :=
      if cs.tail.head? = some '-' then (true, cs.tail.tail)
      else if cs.tail.head? = some '+' then (false, cs.tail.tail)
      else (false, cs.tail)
     let es := p2.2.takeWhile isDigB
     if es = [] then none
     else some (some (if p2.1 then -(digitsVal es : Int) else (digitsVal es : Int)),
                p2.2.dropWhile isDigB))
  else some (none, cs)

/-- Parse a JSON number literal: optional minus, integer digits with the
leading-zero restriction, optional fraction, optional exponent.  The
literal is kept syntactically, matching how the model carries numbers. -/
def parseNum (cs : List Char) : Option (Json × List Char) :=
  let s1 := parseSign cs
  let s2 := parseDigits s1.2
  if s2.1 = [] then none
  else if 2 ≤ s2.1.length ∧ s2.1.head? = some '0' then none
  else
    match parseFrac s2.2 with
    | none => none
    | some (frac, r2) =>
      match parseExp r2 with
      | none => none
      | some (ex, r4) => some (.num s1.1 (digitsVal s2.1) frac ex, r4)

/-!
One step of the streaming JSON parser, with explicit fuel (first
argument) and the serde_json remaining-depth counter (second argument):
entering a container decrements the counter and errors when it reaches
zero, duplicating the serde_json check_recursion behaviour with its
initial value 128.  parseVal dispatches on the first significant
character exactly as the serde_json parser peeks one byte: the
literals null, true and false, a string after a quote, an object after
an opening brace, an array after an opening bracket, and otherwise a
number.  The string parser receives length-based fuel, which is always
sufficient.
-/
mutual
def parseVal : Nat → Nat → List Char → Option (Json × List Char)
  | 0, _, _ => none
  | fuel + 1, dep, cs =>
    match skipWs cs with
    | [] => none
    | c :: r =>
      if c = 'n' then
        (match r with | 'u' :: 'l' :: 'l' :: r2 => some (.null, r2) | _ => none)
      else if c = 't' then
        (match r with | 'r' :: 'u' :: 'e' :: r2 => some (.bool true, r2) | _ => none)
      else if c = 'f' then
        (match r with | 'a' :: 'l' :: 's' :: 'e' :: r2 => some (.bool false, r2) | _ => none)
      else if c = '"' then (parseStrBody (r.length + 1) r).map (fun p => (.str p.1, p.2))
      else if c = '{' then
        if dep ≤ 1 then none
        else
          (let w2 := skipWs r
           if w2.head? = some '}' then some (.obj .nil, w2.tail)
           else (parseMems fuel (dep - 1) w2).map (fun p => (.obj p.1, p.2)))
      else if c = '[' then
        if dep ≤ 1 then none
        else
          (let w2 := skipWs r
           if w2.head? = some ']' then some (.arr .nil, w2.tail)
           else (parseElems fuel (dep - 1) w2).map (fun p => (.arr p.1, p.2)))
      else parseNum (c :: r)
def parseElems : Nat → Nat → List Char → Option (JArr × List Char)
  | 0, _, _ => none
  | fuel + 1, dep, cs =>
    match parseVal fuel dep cs with
    | none => none
    | some (v, r) =>
      (let w := skipWs r
       if w.head? = some ',' then (parseElems fuel dep w.tail).map (fun p => (.cons v p.1, p.2))
       else if w.head? = some ']' then some (.cons v .nil, w.tail)
       else none)
def parseMems : Nat → Nat → List Char → Option (JObj × List Char)
  | 0, _, _ => none
  | fuel + 1, dep, cs =>
    (let w := skipWs cs
     if w.head? = some '"' then
       (match parseStrBody (w.tail.length + 1) w.tail with
        | none => none
        | some (k, r1) =>
          (let w1 := skipWs r1
           if w1.head? = some ':' then
             (match parseVal fuel dep w1.tail with
              | none => none
              | some (v, r3) =>
                (let w3 := skipWs r3
                 if w3.head? = some ',' then
                   (parseMems fuel dep w3.tail).map (fun p => (.cons k v p.1, p.2))
                 else if w3.head? = some '}' then some (.cons k v .nil, w3.tail)
                 else none))
           else none))
     else none)
end

/-- Parse one complete JSON document, as serde_json::from_str does:
one value, then only whitespace up to the end of input.  The fuel is
sufficient for any input of the given length, and the depth counter
starts at the serde_json value 128. -/
def parseTop (cs : List Char) : Option Json :=
  match parseVal (cs.length + 1) 128 cs with
  | some (j, r) => if skipWs r = [] then some j else none
  | none => none

/-- The FakeKeyActionMessage enum of lib.rs (lines 107 to 113). -/
inductive FakeKeyActionMessage where
  | Press | Release | Tap | Toggle
deriving DecidableEq

/-- The ServerMessage enum of lib.rs (lines 4 to 21).  The u64 field is
modelled as Fin of 2 to the 64. -/
inductive ServerMessage where
  | LayerChange (new : String)
  | LayerNames (names : List String)
  | CurrentLayerInfo (name : String) (cfg_text : String)
  | ConfigFileReload (new : String)
  | CurrentLayerName (name : String)
  | MessagePush (message : Json)
  | Error (msg : String)
  | AuthResult (success : Bool) (session_id : Option String)
      (expires_in_seconds : Option (Fin 18446744073709551616))
  | AuthRequired
  | SessionExpired

/-- The ServerResponse enum of lib.rs (lines 23 to 28), serialized
internally tagged with tag field "status". -/
inductive ServerResponse where
  | Ok | Error (msg : String)
deriving DecidableEq

/-- The ClientMessage enum of lib.rs (lines 46 to 105).  u16 fields are
modelled as Fin 65536 and the usize field as Fin of 2 to the 64 (the
64-bit targets the daemon is built for). -/
inductive ClientMessage where
  | Authenticate (token : String) (client_name : Option String)
  | ChangeLayer (new : String) (session_id : Option String)
  | RequestLayerNames (session_id : Option String)
  | RequestCurrentLayerInfo (session_id : Option String)
  | RequestCurrentLayerName (session_id : Option String)
  | ActOnFakeKey (name : String) (action : FakeKeyActionMessage) (session_id : Option String)
  | SetMouse (x : Fin 65536) (y : Fin 65536) (session_id : Option String)
  | Reload (session_id : Option String)
  | ReloadNext (session_id : Option String)
  | ReloadPrev (session_id : Option String)
  | ReloadNum (index : Fin 18446744073709551616) (session_id : Option String)
  | ReloadFile (path : String) (session_id : Option String)
deriving DecidableEq

/-- Integer JSON literal. -/
def jnat (n : Nat) : Json := .num false n [] none

/-- How serde serializes an Option String field that does not carry a
skip_serializing_if attribute: None becomes null. -/
def joptStr : Option String → Json
  | none => .null
  | some s => .str s

/-- Likewise for the Option u64 field of AuthResult. -/
def joptU64 : Option (Fin 18446744073709551616) → Json
  | none => .null
  | some v => jnat v.val

/-- The session_id field of every ClientMessage variant except
Authenticate carries skip_serializing_if Option::is_none, so the
encoder omits the key entirely when the value is None. -/
def sidField : Option String → List (String × Json)
  | none => []
  | some s => [("session_id", .str s)]

/-- A JSON array of strings, for the Vec of Strings in LayerNames. -/
def jstrArr (l : List String) : Json := .arr (jarrOf (l.map Json.str))

/-- Variant names of FakeKeyActionMessage; its unit variants serialize
as bare strings in the externally tagged representation. -/
def fkaName : FakeKeyActionMessage → String
  | .Press => "Press"
  | .Release => "Release"
  | .Tap => "Tap"
  | .Toggle => "Toggle"

/-- Externally tagged wrapper: one-key object mapping the variant name
to its payload. -/
def jobj1 (tag : String) (payload : Json) : Json := .obj (.cons tag payload .nil)

/-- The derived Serialize for ClientMessage: externally tagged, fields
in declaration order, session_id omitted when None (lib.rs lines 46 to
105). -/
def toJsonClient : ClientMessage → Json
  | .Authenticate tok cn =>
      jobj1 "Authenticate" (.obj (jobjOf [("token", .str tok), ("client_name", joptStr cn)]))
  | .ChangeLayer nw sid =>
      jobj1 "ChangeLayer" (.obj (jobjOf (("new", .str nw) :: sidField sid)))
  | .RequestLayerNames sid =>
      jobj1 "RequestLayerNames" (.obj (jobjOf (sidField sid)))
  | .RequestCurrentLayerInfo sid =>
      jobj1 "RequestCurrentLayerInfo" (.obj (jobjOf (sidField sid)))
  | .RequestCurrentLayerName sid =>
      jobj1 "RequestCurrentLayerName" (.obj (jobjOf (sidField sid)))
  | .ActOnFakeKey nm a sid =>
      jobj1 "ActOnFakeKey"
        (.obj (jobjOf (("name", .str nm) :: ("action", .str (fkaName a)) :: sidField sid)))
  | .SetMouse x y sid =>
      jobj1 "SetMouse" (.obj (jobjOf (("x", jnat x.val) :: ("y", jnat y.val) :: sidField sid)))
  | .Reload sid => jobj1 "Reload" (.obj (jobjOf (sidField sid)))
  | .ReloadNext sid => jobj1 "ReloadNext" (.obj (jobjOf (sidField sid)))
  | .ReloadPrev sid => jobj1 "ReloadPrev" (.obj (jobjOf (sidField sid)))
  | .ReloadNum i sid =>
      jobj1 "ReloadNum" (.obj (jobjOf (("index", jnat i.val) :: sidField sid)))
  | .ReloadFile p sid =>
      jobj1 "ReloadFile" (.obj (jobjOf (("path", .str p) :: sidField sid)))

/-- The derived Serialize for ServerMessage: externally tagged, unit
variants as bare strings; the AuthResult Option fields carry no skip
attribute in lib.rs (lines 14 to 18), so None serializes as null with
the key present. -/
def toJsonServer : ServerMessage → Json
  | .LayerChange nw => jobj1 "LayerChange" (.obj (jobjOf [("new", .str nw)]))
  | .LayerNames ns => jobj1 "LayerNames" (.obj (jobjOf [("names", jstrArr ns)]))
  | .CurrentLayerInfo nm cfg =>
      jobj1 "CurrentLayerInfo" (.obj (jobjOf [("name", .str nm), ("cfg_text", .str cfg)]))
  | .ConfigFileReload nw => jobj1 "ConfigFileReload" (.obj (jobjOf [("new", .str nw)]))
  | .CurrentLayerName nm => jobj1 "CurrentLayerName" (.obj (jobjOf [("name", .str nm)]))
  | .MessagePush v => jobj1 "MessagePush" (.obj (jobjOf [("message", v)]))
  | .Error m => jobj1 "Error" (.obj (jobjOf [("msg", .str m)]))
  | .AuthResult success sid exp =>
      jobj1 "AuthResult"
        (.obj (jobjOf [("success", .bool success), ("session_id", joptStr sid),
                       ("expires_in_seconds", joptU64 exp)]))
  | .AuthRequired => .str "AuthRequired"
  | .SessionExpired => .str "SessionExpired"

/-- The derived Serialize for ServerResponse with the serde attribute
tag = "status": the variant name goes into a "status" field, remaining
fields are siblings (lib.rs lines 23 to 28). -/
def toJsonResponse : ServerResponse → Json
  | .Ok => .obj (jobjOf [("status", .str "Ok")])
  | .Error m => .obj (jobjOf [("status", .str "Error"), ("msg", .str m)])

/-- Deserializing a String field: only a JSON string is accepted. -/
def decodeString : Json → Option String
  | .str s => some s
  | _ => none

/-- Deserializing an Option String field value: null is None, a string
is Some, anything else is an error. -/
def decodeOptString : Json → Option (Option String)
  | .null => some none
  | .str s => some (some s)
  | _ => none

/-- Deserializing a bool field. -/
def decodeBool : Json → Option Bool
  | .bool b => some b
  | _ => none

/-- Deserializing a u16 field, as serde_json does: the literal must be
an integer (no fraction, no exponent, no minus sign) and fit in 16 bits;
a float literal is an invalid-type error and an out-of-range integer is
an out-of-range error. -/
def decodeU16 : Json → Option (Fin 65536)
  | .num false ip [] none => if h : ip < 65536 then some ⟨ip, h⟩ else none
  | _ => none

/-- Deserializing a u64 or usize field (64-bit target). -/
def decodeU64 : Json → Option (Fin 18446744073709551616)
  | .num false ip [] none =>
      if h : ip < 18446744073709551616 then some ⟨ip, h⟩ else none
  | _ => none

/-- Deserializing the Option u64 field of AuthResult. -/
def decodeOptU64 : Json → Option (Option (Fin 18446744073709551616))
  | .null => some none
  | j => (decodeU64 j).map some

/-- Deserializing a Vec of Strings: a JSON array of strings. -/
def decodeStrList : Json → Option (List String)
  | .arr a => go a
  | _ => none
where
  go : JArr → Option (List String)
    | .nil => some []
    | .cons v tl => do
        let s ← decodeString v
        let r ← go tl
        pure (s :: r)

/-- Variant lookup for FakeKeyActionMessage. -/
def fkaOfName (s : String) : Option FakeKeyActionMessage :=
  if s = "Press" then some .Press
  else if s = "Release" then some .Release
  else if s = "Tap" then some .Tap
  else if s = "Toggle" then some .Toggle
  else none

/-- Deserializing FakeKeyActionMessage, externally tagged with only unit
variants: either a bare variant-name string, or a one-key object whose
value must be null. -/
def decodeFka : Json → Option FakeKeyActionMessage
  | .str s => fkaOfName s
  | .obj (.cons k .null .nil) => fkaOfName k
  | _ => none

/-- A required field: exactly one occurrence, decoded with the field
deserializer; zero occurrences is a missing-field error and two is a
duplicate-field error. -/
def reqF {α : Type} (ms : JObj) (k : String) (dec : Json → Option α) : Option α :=
  match fieldOcc ms k with
  | [v] => dec v
  | _ => none

/-- An Option field: zero occurrences decodes to None, one occurrence is
decoded with the field deserializer, two is a duplicate-field error. -/
def optF {α : Type} (ms : JObj) (k : String) (dec : Json → Option (Option α)) :
    Option (Option α) :=
  match fieldOcc ms k with
  | [] => some none
  | [v] => dec v
  | _ => none

/-- Payload decoder for the Authenticate variant: token is required,
client_name is an Option field. -/
def pAuthenticate : Json → Option ClientMessage
  | .obj ms => do
      let tok ← reqF ms "token" decodeString
      let cn ← optF ms "client_name" decodeOptString
      pure (.Authenticate tok cn)
  | _ => none

/-- Payload decoder for ChangeLayer. -/
def pChangeLayer : Json → Option ClientMessage
  | .obj ms => do
      let nw ← reqF ms "new" decodeString
      let sid ← optF ms "session_id" decodeOptString
      pure (.ChangeLayer nw sid)
  | _ => none

/-- Payload decoder for the variants that carry only the optional
session_id. -/
def pSidOnly (mk : Option String → ClientMessage) : Json → Option ClientMessage
  | .obj ms => do
      let sid ← optF ms "session_id" decodeOptString
      pure (mk sid)
  | _ => none

/-- Payload decoder for ActOnFakeKey. -/
def pActOnFakeKey : Json → Option ClientMessage
  | .obj ms => do
      let nm ← reqF ms "name" decodeString
      let a ← reqF ms "action" decodeFka
      let sid ← optF ms "session_id" decodeOptString
      pure (.ActOnFakeKey nm a sid)
  | _ => none

/-- Payload decoder for SetMouse: both coordinates are required u16
fields. -/
def pSetMouse : Json → Option ClientMessage
  | .obj ms => do
      let x ← reqF ms "x" decodeU16
      let y ← reqF ms "y" decodeU16
      let sid ← optF ms "session_id" decodeOptString
      pure (.SetMouse x y sid)
  | _ => none

/-- Payload decoder for ReloadNum. -/
def pReloadNum : Json → Option ClientMessage
  | .obj ms => do
      let i ← reqF ms "index" decodeU64
      let sid ← optF ms "session_id" decodeOptString
      pure (.ReloadNum i sid)
  | _ => none

/-- Payload decoder for ReloadFile. -/
def pReloadFile : Json → Option ClientMessage
  | .obj ms => do
      let p ← reqF ms "path" decodeString
      let sid ← optF ms "session_id" decodeOptString
      pure (.ReloadFile p sid)
  | _ => none

/-- Variant dispatch for ClientMessage by discriminator: an unrecognized
tag has no decoder, which is the unknown-variant error. -/
def clientPayloadDecode (tag : String) : Option (Json → Option ClientMessage) :=
  if tag = "Authenticate" then some pAuthenticate
  else if tag = "ChangeLayer" then some pChangeLayer
  else if tag = "RequestLayerNames" then some (pSidOnly .RequestLayerNames)
  else if tag = "RequestCurrentLayerInfo" then some (pSidOnly .RequestCurrentLayerInfo)
  else if tag = "RequestCurrentLayerName" then some (pSidOnly .RequestCurrentLayerName)
  else if tag = "ActOnFakeKey" then some pActOnFakeKey
  else if tag = "SetMouse" then some pSetMouse
  else if tag = "Reload" then some (pSidOnly .Reload)
  else if tag = "ReloadNext" then some (pSidOnly .ReloadNext)
  else if tag = "ReloadPrev" then some (pSidOnly .ReloadPrev)
  else if tag = "ReloadNum" then some pReloadNum
  else if tag = "ReloadFile" then some pReloadFile
  else none

/-- The derived Deserialize for ClientMessage (map form of the
externally tagged representation): the document must be a one-key
object whose key is a declared variant name; ClientMessage has no unit
variants, so a bare string never decodes. -/
def decodeClient : Json → Option ClientMessage
  | .obj (.cons tag p .nil) =>
      match clientPayloadDecode tag with
      | some d => d p
      | none => none
  | _ => none

/-- Payload decoder for LayerChange. -/
def sLayerChange : Json → Option ServerMessage
  | .obj ms => (reqF ms "new" decodeString).map ServerMessage.LayerChange
  | _ => none

/-- Payload decoder for LayerNames. -/
def sLayerNames : Json → Option ServerMessage
  | .obj ms => (reqF ms "names" decodeStrList).map ServerMessage.LayerNames
  | _ => none

/-- Payload decoder for CurrentLayerInfo. -/
def sCurrentLayerInfo : Json → Option ServerMessage
  | .obj ms => do
      let nm ← reqF ms "name" decodeString
      let cfg ← reqF ms "cfg_text" decodeString
      pure (.CurrentLayerInfo nm cfg)
  | _ => none

/-- Payload decoder for ConfigFileReload. -/
def sConfigFileReload : Json → Option ServerMessage
  | .obj ms => (reqF ms "new" decodeString).map ServerMessage.ConfigFileReload
  | _ => none

/-- Payload decoder for CurrentLayerName. -/
def sCurrentLayerName : Json → Option ServerMessage
  | .obj ms => (reqF ms "name" decodeString).map ServerMessage.CurrentLayerName
  | _ => none

/-- Payload decoder for MessagePush: the message field is an arbitrary
serde_json Value, taken as the subtree itself. -/
def sMessagePush : Json → Option ServerMessage
  | .obj ms => (reqF ms "message" some).map ServerMessage.MessagePush
  | _ => none

/-- Payload decoder for the Error variant of ServerMessage. -/
def sError : Json → Option ServerMessage
  | .obj ms => (reqF ms "msg" decodeString).map ServerMessage.Error
  | _ => none

/-- Payload decoder for AuthResult: success is required, the other two
fields are Option fields. -/
def sAuthResult : Json → Option ServerMessage
  | .obj ms => do
      let success ← reqF ms "success" decodeBool
      let sid ← optF ms "session_id" decodeOptString
      let exp ← optF ms "expires_in_seconds" decodeOptU64
      pure (.AuthResult success sid exp)
  | _ => none

/-- Unit variants in the map form of the externally tagged
representation require a null payload. -/
def sUnit (m : ServerMessage) : Json → Option ServerMessage
  | .null => some m
  | _ => none

/-- Variant dispatch for ServerMessage by discriminator. -/
def serverPayloadDecode (tag : String) : Option (Json → Option ServerMessage) :=
  if tag = "LayerChange" then some sLayerChange
  else if tag = "LayerNames" then some sLayerNames
  else if tag = "CurrentLayerInfo" then some sCurrentLayerInfo
  else if tag = "ConfigFileReload" then some sConfigFileReload
  else if tag = "CurrentLayerName" then some sCurrentLayerName
  else if tag = "MessagePush" then some sMessagePush
  else if tag = "Error" then some sError
  else if tag = "AuthResult" then some sAuthResult
  else if tag = "AuthRequired" then some (sUnit .AuthRequired)
  else if tag = "SessionExpired" then some (sUnit .SessionExpired)
  else none

/-- The derived Deserialize for ServerMessage (map form plus the bare
string form for unit variants). -/
def decodeServer : Json → Option ServerMessage
  | .str s =>
      if s = "AuthRequired" then some .AuthRequired
      else if s = "SessionExpired" then some .SessionExpired
      else none
  | .obj (.cons tag p .nil) =>
      match serverPayloadDecode tag with
      | some d => d p
      | none => none
  | _ => none

/-- The derived Deserialize for the internally tagged ServerResponse:
the document must be an object; the "status" field (anywhere in the
object, duplicates are an error) names the variant; a unit variant
ignores the remaining content; the Error variant decodes its msg field
from the remaining content with the tag entries stripped. -/
def decodeResponse : Json → Option ServerResponse
  | .obj ms =>
      match fieldOcc ms "status" with
      | [.str s] =>
          if s = "Ok" then some .Ok
          else if s = "Error" then
            (reqF (removeKey ms "status") "msg" decodeString).map ServerResponse.Error
          else none
      | _ => none
  | _ => none

/-- The FromStr instance of ClientMessage (lib.rs lines 115 to 121):
serde_json::from_str, modelled as parsing one JSON document and then
decoding it. -/
def clientFromStr (cs : List Char) : Option ClientMessage := (parseTop cs).bind decodeClient

/-- Client-side decoding of a ServerMessage line with
serde_json::from_str. -/
def serverFromStr (cs : List Char) : Option ServerMessage := (parseTop cs).bind decodeServer

/-- Client-side decoding of a ServerResponse line with
serde_json::from_str. -/
def responseFromStr (cs : List Char) : Option ServerResponse := (parseTop cs).bind decodeResponse

/-- ServerMessage::as_bytes (lib.rs lines 38 to 44): the serde_json
serialization with one newline byte appended. -/
def serverAsBytes (m : ServerMessage) : List Char := renderJson (toJsonServer m) ++ ['\n']

/-- ServerResponse::as_bytes (lib.rs lines 30 to 36). -/
def responseAsBytes (r : ServerResponse) : List Char := renderJson (toJsonResponse r) ++ ['\n']

/-- serde_json::to_vec returns a Result; for these derived Serialize
impls over string-keyed, finite data its error paths (a map with a
non-string key, a failing custom Serialize impl, an io write error)
cannot arise, which the model reflects by always returning the rendered
text.  The as_bytes methods unwrap this Result with expect; the checked
functions below model that expect as the none case. -/
def jsonToVecChecked (j : Json) : Option (List Char) := some (renderJson j)

/-- ServerMessage::as_bytes with the expect on serde_json::to_vec
modelled explicitly: none is the unreachable fatal branch. -/
def serverAsBytesChecked (m : ServerMessage) : Option (List Char) :=
  (jsonToVecChecked (toJsonServer m)).map (fun v => v ++ ['\n'])

/-- ServerResponse::as_bytes with the expect modelled explicitly. -/
def responseAsBytesChecked (r : ServerResponse) : Option (List Char) :=
  (jsonToVecChecked (toJsonResponse r)).map (fun v => v ++ ['\n'])

/-- Encode-then-decode for ClientMessage: serde_json serialization text,
decoded via the FromStr instance. -/
def clientRoundTrip (m : ClientMessage) : Option ClientMessage :=
  clientFromStr (renderJson (toJsonClient m))

/-- Encode-then-decode for ServerMessage: as_bytes output (including the
newline terminator, which from_str accepts as trailing whitespace). -/
def serverRoundTrip (m : ServerMessage) : Option ServerMessage :=
  serverFromStr (serverAsBytes m)

/-- Encode-then-decode for ServerResponse. -/
def responseRoundTrip (r : ServerResponse) : Option ServerResponse :=
  responseFromStr (responseAsBytes r)

/-- The declared ClientMessage variant names, in declaration order. -/
def clientTags : List String :=
  ["Authenticate", "ChangeLayer", "RequestLayerNames", "RequestCurrentLayerInfo",
   "RequestCurrentLayerName", "ActOnFakeKey", "SetMouse", "Reload", "ReloadNext",
   "ReloadPrev", "ReloadNum", "ReloadFile"]

/-- The declared ServerMessage variant names. -/
def serverTags : List String :=
  ["LayerChange", "LayerNames", "CurrentLayerInfo", "ConfigFileReload",
   "CurrentLayerName", "MessagePush", "Error", "AuthResult", "AuthRequired",
   "SessionExpired"]

/-- The declared ServerResponse variant names. -/
def responseTags : List String := ["Ok", "Error"]

/-- The discriminator of a ClientMessage value. -/
def clientTag : ClientMessage → String
  | .Authenticate _ _ => "Authenticate"
  | .ChangeLayer _ _ => "ChangeLayer"
  | .RequestLayerNames _ => "RequestLayerNames"
  | .RequestCurrentLayerInfo _ => "RequestCurrentLayerInfo"
  | .RequestCurrentLayerName _ => "RequestCurrentLayerName"
  | .ActOnFakeKey _ _ _ => "ActOnFakeKey"
  | .SetMouse _ _ _ => "SetMouse"
  | .Reload _ => "Reload"
  | .ReloadNext _ => "ReloadNext"
  | .ReloadPrev _ => "ReloadPrev"
  | .ReloadNum _ _ => "ReloadNum"
  | .ReloadFile _ _ => "ReloadFile"

/-- The declared field names of the variant of a ClientMessage value. -/
def clientFieldNames : ClientMessage → List String
  | .Authenticate _ _ => ["token", "client_name"]
  | .ChangeLayer _ _ => ["new", "session_id"]
  | .RequestLayerNames _ => ["session_id"]
  | .RequestCurrentLayerInfo _ => ["session_id"]
  | .RequestCurrentLayerName _ => ["session_id"]
  | .ActOnFakeKey _ _ _ => ["name", "action", "session_id"]
  | .SetMouse _ _ _ => ["x", "y", "session_id"]
  | .Reload _ => ["session_id"]
  | .ReloadNext _ => ["session_id"]
  | .ReloadPrev _ => ["session_id"]
  | .ReloadNum _ _ => ["index", "session_id"]
  | .ReloadFile _ _ => ["path", "session_id"]

/-- The required (non Option) field names of the variant of a
ClientMessage value. -/
def clientRequiredFields : ClientMessage → List String
  | .Authenticate _ _ => ["token"]
  | .ChangeLayer _ _ => ["new"]
  | .RequestLayerNames _ => []
  | .RequestCurrentLayerInfo _ => []
  | .RequestCurrentLayerName _ => []
  | .ActOnFakeKey _ _ _ => ["name", "action"]
  | .SetMouse _ _ _ => ["x", "y"]
  | .Reload _ => []
  | .ReloadNext _ => []
  | .ReloadPrev _ => []
  | .ReloadNum _ _ => ["index"]
  | .ReloadFile _ _ => ["path"]

/-- The declared field names of the variant of a ServerMessage value. -/
def serverFieldNames : ServerMessage → List String
  | .LayerChange _ => ["new"]
  | .LayerNames _ => ["names"]
  | .CurrentLayerInfo _ _ => ["name", "cfg_text"]
  | .ConfigFileReload _ => ["new"]
  | .CurrentLayerName _ => ["name"]
  | .MessagePush _ => ["message"]
  | .Error _ => ["msg"]
  | .AuthResult _ _ _ => ["success", "session_id", "expires_in_seconds"]
  | .AuthRequired => []
  | .SessionExpired => []

/-- The field names of a ServerResponse value in its internally tagged
wire form, including the tag field. -/
def responseFieldNames : ServerResponse → List String
  | .Ok => ["status"]
  | .Error _ => ["status", "msg"]

/-- The session_id field of a ClientMessage (none for Authenticate,
which does not carry one). -/
def ClientMessage.sessionId : ClientMessage → Option String
  | .Authenticate _ _ => none
  | .ChangeLayer _ s => s
  | .RequestLayerNames s => s
  | .RequestCurrentLayerInfo s => s
  | .RequestCurrentLayerName s => s
  | .ActOnFakeKey _ _ s => s
  | .SetMouse _ _ s => s
  | .Reload s => s
  | .ReloadNext s => s
  | .ReloadPrev s => s
  | .ReloadNum _ s => s
  | .ReloadFile _ s => s

/-- Whether a ClientMessage is the Authenticate variant. -/
def isAuthenticate : ClientMessage → Bool
  | .Authenticate _ _ => true
  | _ => false

/-- A nested array of the given depth, used to exhibit the serde_json
recursion limit. -/
def deepArr : Nat → Json
  | 0 => Json.null
  | n + 1 => Json.arr (.cons (deepArr n) .nil)

/-- Newline-terminated frames of a byte stream: the segments between
newline bytes, dropping the final segment after the last terminator
(empty for a well-terminated stream). -/
def frames (cs : List Char) : List (List Char) := (cs.splitOn '\n').dropLast

/-- Substring test used to state wire-form containment facts. -/
def hasSub (pat s : List Char) : Bool := s.tails.any (fun t => pat.isPrefixOf t)

/-- toNat of a character built from a scalar value below the surrogate
range. -/
theorem charToNat_ofNat {n : Nat} (h : n < 55296) : (Char.ofNat n).toNat = n := by
  have hv : n.isValidChar := Or.inl h
  simp [Char.ofNat, hv, Char.ofNatAux, Char.toNat, UInt32.toNat, BitVec.toNat_ofNatLt]

/-- Characters are equal exactly when their code points are. -/
theorem charEq_iff {a b : Char} : a = b ↔ a.toNat = b.toNat := by
  constructor
  · intro h; rw [h]
  · intro h; exact Char.ext (UInt32.ext h)

theorem digChar_toNat {d : Nat} (h : d < 10) : (digChar d).toNat = 48 + d :=
  charToNat_ofNat (by omega)

theorem isDigB_digChar {d : Nat} (h : d < 10) : isDigB (digChar d) = true := by
  simp [isDigB, digChar_toNat h]; omega

theorem isDigB_toNat {c : Char} (h : isDigB c = true) : 48 ≤ c.toNat ∧ c.toNat ≤ 57 := by
  simpa [isDigB] using h

/-- Whitespace test characterized by code point. -/
theorem isWsB_false_iff {c : Char} :
    isWsB c = false ↔ (c.toNat ≠ 32 ∧ c.toNat ≠ 9 ∧ c.toNat ≠ 10 ∧ c.toNat ≠ 13) := by
  simp only [isWsB, Bool.or_eq_false_iff, beq_eq_false_iff_ne, ne_eq, charEq_iff]
  rw [show (' ').toNat = 32 from by decide, show ('\t').toNat = 9 from by decide,
      show ('\n').toNat = 10 from by decide, show ('\r').toNat = 13 from by decide]
  tauto

theorem isWsB_of_isDigB {c : Char} (h : isDigB c = true) : isWsB c = false := by
  have h2 := isDigB_toNat h
  rw [isWsB_false_iff]
  omega

/-- Digit characters are digits and differ from the given punctuation. -/
theorem digChar_ne {d : Nat} (hd : d < 10) {n : Nat} (c : Char) (hc : c.toNat = n)
    (hn : ¬ (48 ≤ n ∧ n ≤ 57)) : digChar d ≠ c := by
  intro h
  rw [charEq_iff, digChar_toNat hd, hc] at h
  omega

theorem takeWhile_app {p : Char → Bool} {l r : List Char} (hl : ∀ c ∈ l, p c = true)
    (hr : ∀ c, r.head? = some c → p c = false) : (l ++ r).takeWhile p = l := by
  induction l with
  | nil =>
      simp only [List.nil_append]
      cases r with
      | nil => rfl
      | cons c t => simp [List.takeWhile_cons, hr c rfl]
  | cons c t ih =>
      have hc := hl c (by simp)
      have iht := ih (fun x hx => hl x (by simp [hx]))
      simp [List.takeWhile_cons, hc, iht]

theorem dropWhile_app {p : Char → Bool} {l r : List Char} (hl : ∀ c ∈ l, p c = true)
    (hr : ∀ c, r.head? = some c → p c = false) : (l ++ r).dropWhile p = r := by
  induction l with
  | nil =>
      simp only [List.nil_append]
      cases r with
      | nil => rfl
      | cons c t => simp [List.dropWhile_cons, hr c rfl]
  | cons c t ih =>
      have hc := hl c (by simp)
      have iht := ih (fun x hx => hl x (by simp [hx]))
      simp [List.dropWhile_cons, hc, iht]

theorem skipWs_cons {c : Char} {r : List Char} (h : isWsB c = false) :
    skipWs (c :: r) = c :: r := by
  simp [skipWs, List.dropWhile_cons, h]

theorem skipWs_all {l : List Char} (h : ∀ c ∈ l, isWsB c = true) : skipWs l = [] := by
  induction l with
  | nil => rfl
  | cons c t ih =>
      have hc := h c (by simp)
      have iht := ih (fun x hx => h x (by simp [hx]))
      simp only [skipWs, List.dropWhile_cons, hc, if_true]
      simpa [skipWs] using iht

theorem natDigits_ne_nil (n : Nat) : natDigits n ≠ [] := by
  unfold natDigits
  split
  · simp
  · next h =>
      have hne : Nat.digits 10 n ≠ [] := Nat.digits_ne_nil_iff_ne_zero.mpr h
      simp_all

theorem natDigits_digits (n : Nat) : ∀ c ∈ natDigits n, isDigB c = true := by
  unfold natDigits
  split
  · intro c hc; simp at hc; subst hc; decide
  · intro c hc
    simp only [List.mem_map, List.mem_reverse] at hc
    obtain ⟨d, hd, rfl⟩ := hc
    exact isDigB_digChar (Nat.digits_lt_base (by omega) hd)

theorem digitsVal_natDigits (n : Nat) : digitsVal (natDigits n) = n := by
  unfold natDigits digitsVal
  split
  · next h => subst h; decide
  · next _ =>
      rw [List.map_map, List.map_reverse, List.reverse_reverse]
      have heq : (Nat.digits 10 n).map ((fun c => c.toNat - 48) ∘ digChar)
          = (Nat.digits 10 n).map id := by
        apply List.map_congr_left
        intro d hd
        simp only [Function.comp_apply, id_eq]
        rw [digChar_toNat (Nat.digits_lt_base (by omega) hd)]
        omega
      rw [heq, List.map_id, Nat.ofDigits_digits]

/-- The integer digits serde_json prints never trip the leading-zero
check of the parser. -/
theorem natDigits_noLeadZero (n : Nat) :
    ¬ (2 ≤ (natDigits n).length ∧ (natDigits n).head? = some '0') := by
  unfold natDigits
  split
  · simp
  · next h =>
      rintro ⟨hlen, hhead⟩
      have hne : Nat.digits 10 n ≠ [] := Nat.digits_ne_nil_iff_ne_zero.mpr h
      have hlast : (Nat.digits 10 n).getLast hne ≠ 0 := Nat.getLast_digit_ne_zero 10 h
      rw [List.head?_map, List.head?_reverse] at hhead
      rw [List.getLast?_eq_getLast _ hne] at hhead
      simp only [Option.map_some'] at hhead
      have hmem : (Nat.digits 10 n).getLast hne ∈ Nat.digits 10 n := List.getLast_mem hne
      have hlt : (Nat.digits 10 n).getLast hne < 10 := Nat.digits_lt_base (by omega) hmem
      have := Option.some.inj hhead
      rw [charEq_iff, digChar_toNat hlt] at this
      rw [show ('0').toNat = 48 from by decide] at this
      omega

theorem digFin_digChar (d : Fin 10) : digFin (digChar d.val) = d := by
  apply Fin.ext
  simp [digFin, digChar_toNat d.isLt, Nat.mod_eq_of_lt d.isLt]

theorem hexRound {d : Nat} (h : d < 16) : hexDigVal (hexDigChar d) = some d := by
  unfold hexDigChar
  split
  · next h10 =>
      rw [hexDigVal, if_pos]
      · rw [charToNat_ofNat (by omega)]; congr 1; omega
      · rw [charToNat_ofNat (by omega)]; omega
  · next h10 =>
      rw [hexDigVal]
      rw [if_neg, if_pos]
      · rw [charToNat_ofNat (by omega)]; congr 1; omega
      · rw [charToNat_ofNat (by omega)]; omega
      · rw [charToNat_ofNat (by omega)]; omega

theorem escapeChars_cons (c : Char) (l : List Char) :
    escapeChars (c :: l) = escapeChar c ++ escapeChars l := by
  simp [escapeChars]

theorem stringMk_data (s : String) : String.mk s.data = s := rfl

theorem parseStrBody_cons (f : Nat) (c : Char) (r : List Char) :
    parseStrBody (f + 1) (c :: r) =
      (if c = '"' then some ("", r)
       else if c = '\\' then parseEsc f r
       else if c.toNat < 32 then none
       else strCons c (parseStrBody f r)) := rfl

theorem parseEsc_cons (f : Nat) (d : Char) (r2 : List Char) :
    parseEsc (f + 1) (d :: r2) =
      (if d = '"' then strCons '"' (parseStrBody f r2)
       else if d = '\\' then strCons '\\' (parseStrBody f r2)
       else if d = '/' then strCons '/' (parseStrBody f r2)
       else if d = 'b' then strCons '\x08' (parseStrBody f r2)
       else if d = 'f' then strCons '\x0C' (parseStrBody f r2)
       else if d = 'n' then strCons '\n' (parseStrBody f r2)
       else if d = 'r' then strCons '\r' (parseStrBody f r2)
       else if d = 't' then strCons '\t' (parseStrBody f r2)
       else if d = 'u' then parseU f r2
       else none) := rfl

theorem hex4_eval {h1 h2 h3 h4 : Char} {a b c d : Nat} (e1 : hexDigVal h1 = some a)
    (e2 : hexDigVal h2 = some b) (e3 : hexDigVal h3 = some c) (e4 : hexDigVal h4 = some d) :
    hex4 h1 h2 h3 h4 = some (((a * 16 + b) * 16 + c) * 16 + d) := by
  unfold hex4
  rw [e1, e2, e3, e4]

theorem parseU_eval (f : Nat) {h1 h2 h3 h4 : Char} {hv : Nat}
    (hx : hex4 h1 h2 h3 h4 = some hv) (r3 : List Char) :
    parseU (f + 1) (h1 :: h2 :: h3 :: h4 :: r3) =
      (if hv < 55296 ∨ 57344 ≤ hv then strCons (Char.ofNat hv) (parseStrBody f r3)
       else if hv < 56320 then parseU2 f hv r3
       else none) := by
  have step : parseU (f + 1) (h1 :: h2 :: h3 :: h4 :: r3) =
      (match hex4 h1 h2 h3 h4 with
       | none => none
       | some hv =>
         if hv < 55296 ∨ 57344 ≤ hv then strCons (Char.ofNat hv) (parseStrBody f r3)
         else if hv < 56320 then parseU2 f hv r3
         else none) := rfl
  rw [step, hx]

theorem escapeChars_length (c : Char) (l : List Char) :
    (escapeChars (c :: l)).length = (escapeChar c).length + (escapeChars l).length := by
  rw [escapeChars_cons, List.length_append]

/-- Parsing undoes escaping: the string-body parser applied to the
escaped contents followed by the closing quote returns the original
characters, given fuel beyond the escaped length. -/
theorem parseStrBody_escape (l : List Char) (rest : List Char) (fuel : Nat)
    (hf : (escapeChars l).length + 2 ≤ fuel) :
    parseStrBody fuel (escapeChars l ++ '"' :: rest) = some (String.mk l, rest) := by
  induction l generalizing fuel with
  | nil =>
      obtain ⟨f, rfl⟩ : ∃ f, fuel = f + 1 := ⟨fuel - 1, by omega⟩
      show parseStrBody (f + 1) ('"' :: rest) = _
      rw [parseStrBody_cons, if_pos rfl]
  | cons c t ih =>
      rw [escapeChars_length] at hf
      rw [escapeChars_cons, List.append_assoc]
      by_cases h1 : c = '\"'
      · subst h1
        rw [show escapeChar '\"' = ['\\', '\"'] from rfl] at hf ⊢
        simp only [List.length_cons, List.length_nil] at hf
        obtain ⟨f, rfl⟩ : ∃ f, fuel = f + 2 := ⟨fuel - 2, by omega⟩
        show parseStrBody (f + 1 + 1) ('\\' :: '\"' :: (escapeChars t ++ '"' :: rest)) = _
        rw [parseStrBody_cons, if_neg (by decide), if_pos rfl, parseEsc_cons]
        rw [if_pos rfl]
        rw [ih f (by omega)]
        rfl
      by_cases h2 : c = '\\'
      · subst h2
        rw [show escapeChar '\\' = ['\\', '\\'] from rfl] at hf ⊢
        simp only [List.length_cons, List.length_nil] at hf
        obtain ⟨f, rfl⟩ : ∃ f, fuel = f + 2 := ⟨fuel - 2, by omega⟩
        show parseStrBody (f + 1 + 1) ('\\' :: '\\' :: (escapeChars t ++ '"' :: rest)) = _
        rw [parseStrBody_cons, if_neg (by decide), if_pos rfl, parseEsc_cons]
        rw [if_neg (by decide), if_pos rfl]
        rw [ih f (by omega)]
        rfl
      by_cases h3 : c = '\x08'
      · subst h3
        rw [show escapeChar '\x08' = ['\\', 'b'] from rfl] at hf ⊢
        simp only [List.length_cons, List.length_nil] at hf
        obtain ⟨f, rfl⟩ : ∃ f, fuel = f + 2 := ⟨fuel - 2, by omega⟩
        show parseStrBody (f + 1 + 1) ('\\' :: 'b' :: (escapeChars t ++ '"' :: rest)) = _
        rw [parseStrBody_cons, if_neg (by decide), if_pos rfl, parseEsc_cons]
        rw [if_neg (by decide), if_neg (by decide), if_neg (by decide), if_pos rfl]
        rw [ih f (by omega)]
        rfl
      by_cases h4 : c = '\x0C'
      · subst h4
        rw [show escapeChar '\x0C' = ['\\', 'f'] from rfl] at hf ⊢
        simp only [List.length_cons, List.length_nil] at hf
        obtain ⟨f, rfl⟩ : ∃ f, fuel = f + 2 := ⟨fuel - 2, by omega⟩
        show parseStrBody (f + 1 + 1) ('\\' :: 'f' :: (escapeChars t ++ '"' :: rest)) = _
        rw [parseStrBody_cons, if_neg (by decide), if_pos rfl, parseEsc_cons]
        rw [if_neg (by decide), if_neg (by decide), if_neg (by decide), if_neg (by decide), if_pos rfl]
        rw [ih f (by omega)]
        rfl
      by_cases h5 : c = '\n'
      · subst h5
        rw [show escapeChar '\n' = ['\\', 'n'] from rfl] at hf ⊢
        simp only [List.length_cons, List.length_nil] at hf
        obtain ⟨f, rfl⟩ : ∃ f, fuel = f + 2 := ⟨fuel - 2, by omega⟩
        show parseStrBody (f + 1 + 1) ('\\' :: 'n' :: (escapeChars t ++ '"' :: rest)) = _
        rw [parseStrBody_cons, if_neg (by decide), if_pos rfl, parseEsc_cons]
        rw [if_neg (by decide), if_neg (by decide), if_neg (by decide), if_neg (by decide), if_neg (by decide), if_pos rfl]
        rw [ih f (by omega)]
        rfl
      by_cases h6 : c = '\r'
      · subst h6
        rw [show escapeChar '\r' = ['\\', 'r'] from rfl] at hf ⊢
        simp only [List.length_cons, List.length_nil] at hf
        obtain ⟨f, rfl⟩ : ∃ f, fuel = f + 2 := ⟨fuel - 2, by omega⟩
        show parseStrBody (f + 1 + 1) ('\\' :: 'r' :: (escapeChars t ++ '"' :: rest)) = _
        rw [parseStrBody_cons, if_neg (by decide), if_pos rfl, parseEsc_cons]
        rw [if_neg (by decide), if_neg (by decide), if_neg (by decide), if_neg (by decide), if_neg (by decide), if_neg (by decide), if_pos rfl]
        rw [ih f (by omega)]
        rfl
      by_cases h7 : c = '\t'
      · subst h7
        rw [show escapeChar '\t' = ['\\', 't'] from rfl] at hf ⊢
        simp only [List.length_cons, List.length_nil] at hf
        obtain ⟨f, rfl⟩ : ∃ f, fuel = f + 2 := ⟨fuel - 2, by omega⟩
        show parseStrBody (f + 1 + 1) ('\\' :: 't' :: (escapeChars t ++ '"' :: rest)) = _
        rw [parseStrBody_cons, if_neg (by decide), if_pos rfl, parseEsc_cons]
        rw [if_neg (by decide), if_neg (by decide), if_neg (by decide), if_neg (by decide), if_neg (by decide), if_neg (by decide), if_neg (by decide), if_pos rfl]
        rw [ih f (by omega)]
        rfl
      by_cases h8 : c.toNat < 32
      · have he : escapeChar c =
            ['\\', 'u', '0', '0', hexDigChar (c.toNat / 16), hexDigChar (c.toNat % 16)] := by
          rw [escapeChar, if_neg h1, if_neg h2, if_neg h3, if_neg h4, if_neg h5, if_neg h6,
              if_neg h7, if_pos h8]
        rw [he] at hf ⊢
        obtain ⟨f, rfl⟩ : ∃ f, fuel = f + 3 := ⟨fuel - 3, by simp at hf; omega⟩
        show parseStrBody (f + 2 + 1)
          ('\\' :: 'u' :: '0' :: '0' :: hexDigChar (c.toNat / 16)
            :: hexDigChar (c.toNat % 16) :: (escapeChars t ++ '"' :: rest)) = _
        rw [parseStrBody_cons, if_neg (by decide), if_pos rfl]
        rw [show f + 2 = f + 1 + 1 from rfl, parseEsc_cons]
        rw [if_neg (by decide), if_neg (by decide), if_neg (by decide), if_neg (by decide),
            if_neg (by decide), if_neg (by decide), if_neg (by decide), if_neg (by decide),
            if_pos rfl]
        have e1 : hexDigVal (hexDigChar (c.toNat / 16)) = some (c.toNat / 16) :=
          hexRound (by omega)
        have e2 : hexDigVal (hexDigChar (c.toNat % 16)) = some (c.toNat % 16) :=
          hexRound (by omega)
        have e0 : hexDigVal '0' = some 0 := by decide
        rw [parseU_eval f (hex4_eval e0 e0 e1 e2)]
        have e3 : ((0 * 16 + 0) * 16 + c.toNat / 16) * 16 + c.toNat % 16 = c.toNat := by
          omega
        rw [e3, if_pos (Or.inl (by omega))]
        rw [Char.ofNat_toNat]
        rw [ih f (by simp at hf; omega)]
        rfl
      · have he : escapeChar c = [c] := by
          rw [escapeChar, if_neg h1, if_neg h2, if_neg h3, if_neg h4, if_neg h5, if_neg h6,
              if_neg h7, if_neg h8]
        rw [he] at hf ⊢
        obtain ⟨f, rfl⟩ : ∃ f, fuel = f + 1 := ⟨fuel - 1, by simp at hf; omega⟩
        show parseStrBody (f + 1) (c :: (escapeChars t ++ '"' :: rest)) = _
        rw [parseStrBody_cons, if_neg h1, if_neg h2, if_neg h8]
        rw [ih f (by simp at hf; omega)]
        rfl

def numStop (rest : List Char) : Prop :=
  ∀ c, rest.head? = some c → isDigB c = false ∧ c ≠ '.' ∧ c ≠ 'e' ∧ c ≠ 'E'

theorem numStop_nil : numStop [] := by intro c hc; cases hc

theorem numStop_cons {c : Char} (l : List Char) (h1 : isDigB c = false) (h2 : c ≠ '.')
    (h3 : c ≠ 'e') (h4 : c ≠ 'E') : numStop (c :: l) := by
  intro x hx
  cases hx
  exact ⟨h1, h2, h3, h4⟩

theorem natDigits_head_digit (n : Nat) :
    ∃ c0 t0, natDigits n = c0 :: t0 ∧ isDigB c0 = true := by
  cases hd : natDigits n with
  | nil => exact absurd hd (natDigits_ne_nil n)
  | cons c0 t0 =>
      refine ⟨c0, t0, rfl, ?_⟩
      have := natDigits_digits n c0 (by rw [hd]; simp)
      exact this

theorem parseDigits_natDigits (n : Nat) (T : List Char)
    (hT : ∀ c, T.head? = some c → isDigB c = false) :
    parseDigits (natDigits n ++ T) = (natDigits n, T) := by
  unfold parseDigits
  rw [takeWhile_app (natDigits_digits n) hT, dropWhile_app (natDigits_digits n) hT]

theorem fracChars_map_digits (fs : List (Fin 10)) :
    ∀ c ∈ fs.map (fun d => digChar d.val), isDigB c = true := by
  intro c hc
  simp only [List.mem_map] at hc
  obtain ⟨d, _, rfl⟩ := hc
  exact isDigB_digChar d.isLt

theorem parseFrac_fracChars (frac : List (Fin 10)) (T2 : List Char)
    (h : ∀ c, T2.head? = some c → isDigB c = false ∧ c ≠ '.') :
    parseFrac (fracChars frac ++ T2) = some (frac, T2) := by
  cases frac with
  | nil =>
      simp only [fracChars, List.nil_append, parseFrac]
      rw [if_neg]
      intro hdot
      cases hT : T2.head? with
      | none => rw [hT] at hdot; cases hdot
      | some c =>
          rw [hT] at hdot
          have := (h c hT).2
          exact this (Option.some.inj hdot)
  | cons f fs =>
      show parseFrac ('.' :: ((f :: fs).map (fun d => digChar d.val) ++ T2)) = _
      unfold parseFrac
      simp only [List.head?_cons, List.tail_cons, reduceIte, if_true]
      have hTd : ∀ c, T2.head? = some c → isDigB c = false := fun c hc => (h c hc).1
      rw [takeWhile_app (fracChars_map_digits (f :: fs)) hTd,
          dropWhile_app (fracChars_map_digits (f :: fs)) hTd]
      rw [if_neg (by simp)]
      congr 1
      congr 1
      rw [List.map_map]
      have : ((f :: fs).map (digFin ∘ fun d => digChar d.val)) = (f :: fs).map id := by
        apply List.map_congr_left
        intro d _
        simp only [Function.comp_apply, id_eq]
        exact digFin_digChar d
      rw [this, List.map_id]

theorem intChars_parse (e : Int) (rest : List Char) (hstop : numStop rest) :
    (let p2 :=
      if (intChars e ++ rest).head? = some '-' then (true, (intChars e ++ rest).tail)
      else if (intChars e ++ rest).head? = some '+' then (false, (intChars e ++ rest).tail)
      else (false, intChars e ++ rest)
     let es := p2.2.takeWhile isDigB
     if es = [] then none
     else some (some (if p2.1 then -(digitsVal es : Int) else (digitsVal es : Int)),
                p2.2.dropWhile isDigB)) = some (some e, rest) := by
  have hTd : ∀ c, rest.head? = some c → isDigB c = false := fun c hc => (hstop c hc).1
  by_cases he : e < 0
  · have hi : intChars e = '-' :: natDigits e.natAbs := by
      unfold intChars
      rw [if_pos he]
      rfl
    rw [hi]
    simp only [List.cons_append, List.head?_cons, List.tail_cons, reduceIte]
    rw [takeWhile_app (natDigits_digits _) hTd, dropWhile_app (natDigits_digits _) hTd]
    rw [if_neg (natDigits_ne_nil _)]
    rw [digitsVal_natDigits]
    have hval : -((e.natAbs : Int)) = e := by omega
    rw [hval]
  · have hi : intChars e = natDigits e.natAbs := by
      unfold intChars
      rw [if_neg he]
      rfl
    rw [hi]
    obtain ⟨c0, t0, hd, hc0⟩ := natDigits_head_digit e.natAbs
    have hne : (natDigits e.natAbs ++ rest).head? = some c0 := by
      rw [hd]; rfl
    have h1 : ¬ (natDigits e.natAbs ++ rest).head? = some '-' := by
      rw [hne]
      intro hx
      have := Option.some.inj hx
      subst this
      have := isDigB_toNat hc0
      rw [show ('-').toNat = 45 from by decide] at this
      omega
    have h2 : ¬ (natDigits e.natAbs ++ rest).head? = some '+' := by
      rw [hne]
      intro hx
      have := Option.some.inj hx
      subst this
      have := isDigB_toNat hc0
      rw [show ('+').toNat = 43 from by decide] at this
      omega
    simp only [if_neg h1, if_neg h2]
    rw [takeWhile_app (natDigits_digits _) hTd, dropWhile_app (natDigits_digits _) hTd]
    rw [if_neg (natDigits_ne_nil _)]
    rw [digitsVal_natDigits]
    have hval : ((e.natAbs : Int)) = e := by omega
    rw [hval]
    rfl

theorem parseExp_expChars (ex : Option Int) (rest : List Char) (hstop : numStop rest) :
    parseExp (expChars ex ++ rest) = some (ex, rest) := by
  cases ex with
  | none =>
      simp only [expChars, List.nil_append, parseExp]
      rw [if_neg]
      rintro (hx | hx) <;>
        · cases hT : rest.head? with
          | none => rw [hT] at hx; cases hx
          | some c =>
              rw [hT] at hx
              have h3 := (hstop c hT).2.2
              have hce := Option.some.inj hx
              first
              | exact h3.1 hce
              | exact h3.2 hce
  | some e =>
      show parseExp ('e' :: (intChars e ++ rest)) = _
      unfold parseExp
      simp only [List.head?_cons, List.tail_cons]
      rw [if_pos (Or.inl trivial)]
      exact intChars_parse e rest hstop

/-- The number parser reads back exactly the number literal the
serializer wrote. -/
theorem parseNum_render (neg : Bool) (ip : Nat) (frac : List (Fin 10)) (ex : Option Int)
    (rest : List Char) (hstop : numStop rest) :
    parseNum (renderNum neg ip frac ex ++ rest) = some (.num neg ip frac ex, rest) := by
  have hT2head : ∀ c, (expChars ex ++ rest).head? = some c → isDigB c = false ∧ c ≠ '.' := by
    cases ex with
    | none =>
        intro c hc
        have h := hstop c hc
        exact ⟨h.1, h.2.1⟩
    | some e =>
        intro c hc
        simp only [expChars, List.cons_append, List.head?_cons] at hc
        have hce := Option.some.inj hc
        subst hce
        exact ⟨by decide, by decide⟩
  have hThead : ∀ c, (fracChars frac ++ (expChars ex ++ rest)).head? = some c →
      isDigB c = false := by
    cases frac with
    | nil =>
        intro c hc
        simp only [fracChars, List.nil_append] at hc
        exact (hT2head c hc).1
    | cons f fs =>
        intro c hc
        simp only [fracChars, List.cons_append, List.head?_cons] at hc
        have hce := Option.some.inj hc
        subst hce
        decide
  have hsign : parseSign (renderNum neg ip frac ex ++ rest)
      = (neg, natDigits ip ++ (fracChars frac ++ (expChars ex ++ rest))) := by
    cases neg with
    | true =>
        show parseSign ((['-'] ++ natDigits ip ++ fracChars frac ++ expChars ex) ++ rest) = _
        simp only [List.append_assoc, List.cons_append, List.nil_append]
        unfold parseSign
        simp only [List.head?_cons, List.tail_cons, reduceIte]
    | false =>
        show parseSign ((([] : List Char) ++ natDigits ip ++ fracChars frac ++ expChars ex)
            ++ rest) = _
        simp only [List.append_assoc, List.nil_append]
        obtain ⟨c0, t0, hd, hc0⟩ := natDigits_head_digit ip
        unfold parseSign
        rw [hd]
        simp only [List.cons_append, List.head?_cons]
        rw [if_neg ?hne]
        case hne =>
          intro hx
          have hce := Option.some.inj hx
          subst hce
          have := isDigB_toNat hc0
          rw [show ('-').toNat = 45 from by decide] at this
          omega
  have hdig := parseDigits_natDigits ip (fracChars frac ++ (expChars ex ++ rest)) hThead
  have hfrac := parseFrac_fracChars frac (expChars ex ++ rest) hT2head
  have hexp := parseExp_expChars ex rest hstop
  simp only [parseNum, hsign, hdig]
  rw [if_neg (natDigits_ne_nil ip), if_neg (natDigits_noLeadZero ip), hfrac]
  simp only [hexp, digitsVal_natDigits]

theorem parseVal_cons (f dep : Nat) (c : Char) (r : List Char) (hc : isWsB c = false) :
    parseVal (f + 1) dep (c :: r) =
      (if c = 'n' then
        (match r with | 'u' :: 'l' :: 'l' :: r2 => some (.null, r2) | _ => none)
      else if c = 't' then
        (match r with | 'r' :: 'u' :: 'e' :: r2 => some (.bool true, r2) | _ => none)
      else if c = 'f' then
        (match r with | 'a' :: 'l' :: 's' :: 'e' :: r2 => some (.bool false, r2) | _ => none)
      else if c = '"' then (parseStrBody (r.length + 1) r).map (fun p => (.str p.1, p.2))
      else if c = '{' then
        if dep ≤ 1 then none
        else
          (let w2 := skipWs r
           if w2.head? = some '}' then some (.obj .nil, w2.tail)
           else (parseMems f (dep - 1) w2).map (fun p => (.obj p.1, p.2)))
      else if c = '[' then
        if dep ≤ 1 then none
        else
          (let w2 := skipWs r
           if w2.head? = some ']' then some (.arr .nil, w2.tail)
           else (parseElems f (dep - 1) w2).map (fun p => (.arr p.1, p.2)))
      else parseNum (c :: r)) := by
  have step : parseVal (f + 1) dep (c :: r) =
      (match skipWs (c :: r) with
       | [] => none
       | c :: r =>
         if c = 'n' then
           (match r with | 'u' :: 'l' :: 'l' :: r2 => some (.null, r2) | _ => none)
         else if c = 't' then
           (match r with | 'r' :: 'u' :: 'e' :: r2 => some (.bool true, r2) | _ => none)
         else if c = 'f' then
           (match r with | 'a' :: 'l' :: 's' :: 'e' :: r2 => some (.bool false, r2) | _ => none)
         else if c = '"' then (parseStrBody (r.length + 1) r).map (fun p => (.str p.1, p.2))
         else if c = '{' then
           if dep ≤ 1 then none
           else
             (let w2 := skipWs r
              if w2.head? = some '}' then some (.obj .nil, w2.tail)
              else (parseMems f (dep - 1) w2).map (fun p => (.obj p.1, p.2)))
         else if c = '[' then
           if dep ≤ 1 then none
           else
             (let w2 := skipWs r
              if w2.head? = some ']' then some (.arr .nil, w2.tail)
              else (parseElems f (dep - 1) w2).map (fun p => (.arr p.1, p.2)))
         else parseNum (c :: r)) := rfl
  rw [step, skipWs_cons hc]

theorem parseElems_succ (f dep : Nat) (cs : List Char) :
    parseElems (f + 1) dep cs =
      (match parseVal f dep cs with
       | none => none
       | some (v, r) =>
         (let w := skipWs r
          if w.head? = some ',' then
            (parseElems f dep w.tail).map (fun p => (.cons v p.1, p.2))
          else if w.head? = some ']' then some (.cons v .nil, w.tail)
          else none)) := rfl

theorem parseMems_succ (f dep : Nat) (cs : List Char) :
    parseMems (f + 1) dep cs =
      (let w := skipWs cs
       if w.head? = some '"' then
         (match parseStrBody (w.tail.length + 1) w.tail with
          | none => none
          | some (k, r1) =>
            (let w1 := skipWs r1
             if w1.head? = some ':' then
               (match parseVal f dep w1.tail with
                | none => none
                | some (v, r3) =>
                  (let w3 := skipWs r3
                   if w3.head? = some ',' then
                     (parseMems f dep w3.tail).map (fun p => (.cons k v p.1, p.2))
                   else if w3.head? = some '}' then some (.cons k v .nil, w3.tail)
                   else none))
             else none))
       else none) := rfl

theorem wVal_pos (j : Json) : 1 ≤ wVal j := by
  cases j <;> simp [wVal]

/-- The first character a rendered number starts with: the minus sign or
a digit; in particular not whitespace and not one of the characters the
value dispatcher tests before falling through to the number parser. -/
theorem renderNum_head (neg : Bool) (ip : Nat) (frac : List (Fin 10)) (ex : Option Int) :
    ∃ c0 r0, renderNum neg ip frac ex = c0 :: r0 ∧ isWsB c0 = false ∧
      c0 ≠ 'n' ∧ c0 ≠ 't' ∧ c0 ≠ 'f' ∧ c0 ≠ '"' ∧ c0 ≠ '{' ∧ c0 ≠ '[' ∧
      c0 ≠ '}' ∧ c0 ≠ ']' := by
  cases neg with
  | true =>
      refine ⟨'-', natDigits ip ++ fracChars frac ++ expChars ex, ?_, by decide, by decide,
        by decide, by decide, by decide, by decide, by decide, by decide, by decide⟩
      simp [renderNum, List.append_assoc]
  | false =>
      obtain ⟨c0, t0, hd, hc0⟩ := natDigits_head_digit ip
      have hn := isDigB_toNat hc0
      refine ⟨c0, t0 ++ fracChars frac ++ expChars ex, ?_, isWsB_of_isDigB hc0,
        ?_, ?_, ?_, ?_, ?_, ?_, ?_, ?_⟩
      · simp [renderNum, hd, List.append_assoc]
      all_goals
        (intro hx; rw [charEq_iff] at hx; revert hx)
      · rw [show ('n').toNat = 110 from by decide]; omega
      · rw [show ('t').toNat = 116 from by decide]; omega
      · rw [show ('f').toNat = 102 from by decide]; omega
      · rw [show ('"').toNat = 34 from by decide]; omega
      · rw [show ('{').toNat = 123 from by decide]; omega
      · rw [show ('[').toNat = 91 from by decide]; omega
      · rw [show ('}').toNat = 125 from by decide]; omega
      · rw [show (']').toNat = 93 from by decide]; omega

/-- The first character of any rendered value: never whitespace and
never a closing bracket, closing brace or comma. -/
theorem renderJson_head (j : Json) :
    ∃ c0 r0, renderJson j = c0 :: r0 ∧ isWsB c0 = false ∧ c0 ≠ '}' ∧ c0 ≠ ']' := by
  cases j with
  | num neg ip frac ex =>
      obtain ⟨c0, r0, hd, hws, _, _, _, _, _, _, h7, h8⟩ := renderNum_head neg ip frac ex
      exact ⟨c0, r0, hd, hws, h7, h8⟩
  | bool b => cases b <;> refine ⟨_, _, rfl, ?_, ?_, ?_⟩ <;> decide
  | null => refine ⟨'n', _, rfl, ?_, ?_, ?_⟩ <;> decide
  | str s => refine ⟨'"', _, rfl, ?_, ?_, ?_⟩ <;> decide
  | arr a => refine ⟨'[', _, rfl, ?_, ?_, ?_⟩ <;> decide
  | obj m => refine ⟨'{', _, rfl, ?_, ?_, ?_⟩ <;> decide

/-- The stop condition, applied only to number values (other values end
with a self-delimiting character). -/
def stopOK : Json → List Char → Prop
  | .num _ _ _ _, rest => numStop rest
  | _, _ => True

theorem stopOK_of_numStop (j : Json) (rest : List Char) (h : numStop rest) : stopOK j rest := by
  cases j <;> first | exact h | trivial

theorem numStop_comma (l : List Char) : numStop (',' :: l) :=
  numStop_cons l (by decide) (by decide) (by decide) (by decide)

theorem numStop_rbracket (l : List Char) : numStop (']' :: l) :=
  numStop_cons l (by decide) (by decide) (by decide) (by decide)

theorem numStop_rbrace (l : List Char) : numStop ('}' :: l) :=
  numStop_cons l (by decide) (by decide) (by decide) (by decide)

theorem renderJson_null : renderJson .null = ['n', 'u', 'l', 'l'] := by rw [renderJson.eq_def]
theorem renderJson_true : renderJson (.bool true) = ['t', 'r', 'u', 'e'] := by
  rw [renderJson.eq_def]
theorem renderJson_false : renderJson (.bool false) = ['f', 'a', 'l', 's', 'e'] := by
  rw [renderJson.eq_def]
theorem renderJson_num (neg : Bool) (ip : Nat) (frac : List (Fin 10)) (ex : Option Int) :
    renderJson (.num neg ip frac ex) = renderNum neg ip frac ex := by rw [renderJson.eq_def]
theorem renderJson_str (s : String) : renderJson (.str s) = strLit s := by
  rw [renderJson.eq_def]
theorem renderJson_arr (a : JArr) : renderJson (.arr a) = '[' :: (renderArr a ++ [']']) := by
  rw [renderJson.eq_def]
theorem renderJson_obj (m : JObj) : renderJson (.obj m) = '{' :: (renderObj m ++ ['}']) := by
  rw [renderJson.eq_def]
theorem renderArr_single (v : Json) : renderArr (.cons v .nil) = renderJson v := by
  rw [renderArr.eq_def]
theorem renderArr_cons2 (v w : Json) (tw : JArr) :
    renderArr (.cons v (.cons w tw)) = renderJson v ++ ',' :: renderArr (.cons w tw) := by
  rw [renderArr.eq_def]
theorem renderObj_single (k : String) (v : Json) :
    renderObj (.cons k v .nil) = strLit k ++ ':' :: renderJson v := by
  rw [renderObj.eq_def]
theorem renderObj_cons2 (k : String) (v : Json) (k2 : String) (v2 : Json) (t2 : JObj) :
    renderObj (.cons k v (.cons k2 v2 t2))
      = strLit k ++ ':' :: renderJson v ++ ',' :: renderObj (.cons k2 v2 t2) := by
  rw [renderObj.eq_def]

/-- The first character of a rendered nonempty array tail. -/
theorem renderArr_head (v : Json) (tl : JArr) :
    ∃ c1 t1, renderArr (.cons v tl) = c1 :: t1 ∧ isWsB c1 = false ∧ c1 ≠ '}' ∧ c1 ≠ ']' := by
  obtain ⟨c1, r1, hd1, hws1, hbr1, hbk1⟩ := renderJson_head v
  cases tl with
  | nil => exact ⟨c1, r1, by rw [renderArr_single, hd1], hws1, hbr1, hbk1⟩
  | cons w tw =>
      exact ⟨c1, r1 ++ ',' :: renderArr (.cons w tw),
        by rw [renderArr_cons2, hd1]; rfl, hws1, hbr1, hbk1⟩

theorem wVal_arr (a : JArr) : wVal (.arr a) = 1 + wArr a := by rw [wVal.eq_def]
theorem wVal_obj (m : JObj) : wVal (.obj m) = 1 + wObj m := by rw [wVal.eq_def]
theorem wArr_cons (v : Json) (tl : JArr) : wArr (.cons v tl) = 1 + wVal v + wArr tl := by
  rw [wArr.eq_def]
theorem wObj_cons (k : String) (v : Json) (tl : JObj) :
    wObj (.cons k v tl) = 1 + wVal v + wObj tl := by
  rw [wObj.eq_def]
theorem dVal_arr (a : JArr) : dVal (.arr a) = 1 + dArr a := by rw [dVal.eq_def]
theorem dVal_obj (m : JObj) : dVal (.obj m) = 1 + dObj m := by rw [dVal.eq_def]
theorem dArr_nil : dArr .nil = 0 := by rw [dArr.eq_def]
theorem dArr_cons (v : Json) (tl : JArr) : dArr (.cons v tl) = max (dVal v) (dArr tl) := by
  rw [dArr.eq_def]
theorem dObj_nil : dObj .nil = 0 := by rw [dObj.eq_def]
theorem dObj_cons (k : String) (v : Json) (tl : JObj) :
    dObj (.cons k v tl) = max (dVal v) (dObj tl) := by
  rw [dObj.eq_def]

/-- Parser correctness on serializer output, proved by strong induction
on the node-count weight: with enough fuel and depth allowance, parsing
the rendered text of a value consumes exactly that text and returns the
value; likewise for nonempty array tails up to the closing bracket and
nonempty object tails up to the closing brace. -/
theorem parseRenderAux (n : Nat) :
    (∀ j : Json, wVal j ≤ n → ∀ f dep rest, wVal j ≤ f → dVal j < dep → stopOK j rest →
      parseVal f dep (renderJson j ++ rest) = some (j, rest))
    ∧ (∀ (v : Json) (tl : JArr), wArr (.cons v tl) ≤ n → ∀ f dep rest,
        wArr (.cons v tl) ≤ f → dArr (.cons v tl) < dep →
        parseElems f dep (renderArr (.cons v tl) ++ ']' :: rest) = some (.cons v tl, rest))
    ∧ (∀ (k : String) (v : Json) (tl : JObj), wObj (.cons k v tl) ≤ n → ∀ f dep rest,
        wObj (.cons k v tl) ≤ f → dObj (.cons k v tl) < dep →
        parseMems f dep (renderObj (.cons k v tl) ++ '}' :: rest)
          = some (.cons k v tl, rest)) := by
  induction n using Nat.strong_induction_on with
  | _ n IH =>
  refine ⟨?_, ?_, ?_⟩
  · intro j hw f dep rest hwf hdep hstop
    obtain ⟨fu, rfl⟩ : ∃ fu, f = fu + 1 := by
      have := wVal_pos j
      cases f with
      | zero => omega
      | succ fu => exact ⟨fu, rfl⟩
    cases j with
    | null =>
        rw [renderJson_null]
        rw [show (['n', 'u', 'l', 'l'] : List Char) ++ rest = 'n' :: 'u' :: 'l' :: 'l' :: rest
          from rfl]
        rw [parseVal_cons _ _ _ _ (by decide)]
        rfl
    | bool b =>
        cases b with
        | true =>
            rw [renderJson_true]
            rw [show (['t', 'r', 'u', 'e'] : List Char) ++ rest
              = 't' :: 'r' :: 'u' :: 'e' :: rest from rfl]
            rw [parseVal_cons _ _ _ _ (by decide)]
            rfl
        | false =>
            rw [renderJson_false]
            rw [show (['f', 'a', 'l', 's', 'e'] : List Char) ++ rest
              = 'f' :: 'a' :: 'l' :: 's' :: 'e' :: rest from rfl]
            rw [parseVal_cons _ _ _ _ (by decide)]
            rfl
    | str s =>
        rw [renderJson_str]
        rw [show strLit s ++ rest = '"' :: (escapeChars s.data ++ '"' :: rest) from by
          simp [strLit]]
        rw [parseVal_cons _ _ _ _ (by decide)]
        rw [if_neg (by decide), if_neg (by decide), if_neg (by decide), if_pos rfl]
        rw [parseStrBody_escape _ _ _
          (by simp only [List.length_append, List.length_cons]; omega)]
        rfl
    | num neg ip frac ex =>
        obtain ⟨c0, r0, hd, hws, h1, h2, h3, h4, h5, h6, _, _⟩ :=
          renderNum_head neg ip frac ex
        rw [renderJson_num, hd]
        rw [show (c0 :: r0) ++ rest = c0 :: (r0 ++ rest) from rfl]
        rw [parseVal_cons _ _ _ _ hws]
        rw [if_neg h1, if_neg h2, if_neg h3, if_neg h4, if_neg h5, if_neg h6]
        rw [show c0 :: (r0 ++ rest) = renderNum neg ip frac ex ++ rest from by rw [hd]; rfl]
        exact parseNum_render neg ip frac ex rest hstop
    | arr a =>
        cases a with
        | nil =>
            rw [renderJson_arr]
            rw [show ('[' :: (renderArr .nil ++ [']'])) ++ rest = '[' :: ']' :: rest from by
              rw [renderArr.eq_def]; rfl]
            rw [parseVal_cons _ _ _ _ (by decide)]
            rw [if_neg (by decide), if_neg (by decide), if_neg (by decide),
              if_neg (by decide), if_neg (by decide), if_pos rfl]
            rw [if_neg (show ¬ dep ≤ 1 from by
              rw [dVal_arr, dArr_nil] at hdep
              omega)]
            simp only [skipWs_cons (show isWsB ']' = false from by decide), List.head?_cons,
              List.tail_cons, reduceIte]
        | cons v tl =>
            rw [renderJson_arr]
            rw [show ('[' :: (renderArr (.cons v tl) ++ [']'])) ++ rest
              = '[' :: (renderArr (.cons v tl) ++ ']' :: rest) from by simp]
            rw [parseVal_cons _ _ _ _ (by decide)]
            rw [if_neg (by decide), if_neg (by decide), if_neg (by decide),
              if_neg (by decide), if_neg (by decide), if_pos rfl]
            have hdv := dVal_arr (.cons v tl)
            rw [if_neg (show ¬ dep ≤ 1 from by omega)]
            obtain ⟨c1, t1, hd1, hws1, _, hbk1⟩ := renderArr_head v tl
            rw [show renderArr (.cons v tl) ++ ']' :: rest = c1 :: (t1 ++ ']' :: rest) from by
              rw [hd1]; rfl]
            rw [skipWs_cons hws1]
            simp only [List.head?_cons, List.tail_cons]
            rw [if_neg (show ¬ (some c1 = some ']') from by
              intro hx; exact hbk1 (Option.some.inj hx))]
            rw [show c1 :: (t1 ++ ']' :: rest) = renderArr (.cons v tl) ++ ']' :: rest from by
              rw [hd1]; rfl]
            have hwa := wVal_arr (.cons v tl)
            have hwc := wArr_cons v tl
            have h2 := (IH (n - 1) (by omega)).2.1 v tl (by omega) fu (dep - 1) rest
              (by omega) (by omega)
            rw [h2]
            rfl
    | obj m =>
        cases m with
        | nil =>
            rw [renderJson_obj]
            rw [show ('{' :: (renderObj .nil ++ ['}'])) ++ rest = '{' :: '}' :: rest from by
              rw [renderObj.eq_def]; rfl]
            rw [parseVal_cons _ _ _ _ (by decide)]
            rw [if_neg (by decide), if_neg (by decide), if_neg (by decide),
              if_neg (by decide), if_pos rfl]
            rw [if_neg (show ¬ dep ≤ 1 from by
              rw [dVal_obj, dObj_nil] at hdep
              omega)]
            simp only [skipWs_cons (show isWsB '}' = false from by decide), List.head?_cons,
              List.tail_cons, reduceIte]
        | cons k v tl =>
            rw [renderJson_obj]
            rw [show ('{' :: (renderObj (.cons k v tl) ++ ['}'])) ++ rest
              = '{' :: (renderObj (.cons k v tl) ++ '}' :: rest) from by simp]
            rw [parseVal_cons _ _ _ _ (by decide)]
            rw [if_neg (by decide), if_neg (by decide), if_neg (by decide),
              if_neg (by decide), if_pos rfl]
            have hdv := dVal_obj (.cons k v tl)
            rw [if_neg (show ¬ dep ≤ 1 from by omega)]
            have hobjhead : ∃ t1, renderObj (.cons k v tl) = '"' :: t1 := by
              cases tl with
              | nil => exact ⟨escapeChars k.data ++ '"' :: ':' :: renderJson v, by
                  rw [renderObj_single]; simp [strLit]⟩
              | cons k2 v2 t2 => exact ⟨escapeChars k.data
                    ++ '"' :: ':' :: (renderJson v ++ ',' :: renderObj (.cons k2 v2 t2)), by
                  rw [renderObj_cons2]; simp [strLit]⟩
            obtain ⟨t1, hd1⟩ := hobjhead
            rw [show renderObj (.cons k v tl) ++ '}' :: rest = '"' :: (t1 ++ '}' :: rest)
              from by rw [hd1]; rfl]
            rw [skipWs_cons (by decide)]
            simp only [List.head?_cons, List.tail_cons]
            rw [if_neg (by decide)]
            rw [show ('"' : Char) :: (t1 ++ '}' :: rest)
              = renderObj (.cons k v tl) ++ '}' :: rest from by rw [hd1]; rfl]
            have hwa := wVal_obj (.cons k v tl)
            have hwc := wObj_cons k v tl
            have h3 := (IH (n - 1) (by omega)).2.2 k v tl (by omega) fu (dep - 1) rest
              (by omega) (by omega)
            rw [h3]
            rfl
  · intro v tl hw f dep rest hwf hdep
    obtain ⟨fu, rfl⟩ : ∃ fu, f = fu + 1 := by
      have := wArr_cons v tl
      cases f with
      | zero => omega
      | succ fu => exact ⟨fu, rfl⟩
    rw [parseElems_succ]
    have hwa := wArr_cons v tl
    have hda := dArr_cons v tl
    have hvpos := wVal_pos v
    cases tl with
    | nil =>
        rw [renderArr_single]
        have h1 := (IH (wVal v) (by omega)).1 v le_rfl fu dep (']' :: rest)
          (by omega) (by omega) (stopOK_of_numStop v _ (numStop_rbracket rest))
        rw [h1]
        simp only [skipWs_cons (show isWsB ']' = false from by decide), List.head?_cons,
          List.tail_cons, reduceIte]
        rw [if_neg (by decide)]
    | cons w tw =>
        rw [renderArr_cons2]
        rw [show (renderJson v ++ ',' :: renderArr (.cons w tw)) ++ ']' :: rest
          = renderJson v ++ ',' :: (renderArr (.cons w tw) ++ ']' :: rest) from by simp]
        have hwtl := wArr_cons w tw
        have h1 := (IH (wVal v) (by omega)).1 v le_rfl fu dep
          (',' :: (renderArr (.cons w tw) ++ ']' :: rest))
          (by omega) (by omega) (stopOK_of_numStop v _ (numStop_comma _))
        rw [h1]
        simp only [skipWs_cons (show isWsB ',' = false from by decide), List.head?_cons,
          List.tail_cons, reduceIte]
        have hdtl := dArr_cons w tw
        have h2 := (IH (n - 1) (by omega)).2.1 w tw (by omega) fu dep rest
          (by omega) (by omega)
        rw [h2]
        rfl
  · intro k v tl hw f dep rest hwf hdep
    obtain ⟨fu, rfl⟩ : ∃ fu, f = fu + 1 := by
      have := wObj_cons k v tl
      cases f with
      | zero => omega
      | succ fu => exact ⟨fu, rfl⟩
    rw [parseMems_succ]
    have hwa := wObj_cons k v tl
    have hda := dObj_cons k v tl
    have hvpos := wVal_pos v
    cases tl with
    | nil =>
        rw [renderObj_single]
        rw [show (strLit k ++ ':' :: renderJson v) ++ '}' :: rest
          = '"' :: (escapeChars k.data ++ '"' :: (':' :: (renderJson v ++ '}' :: rest)))
          from by simp [strLit]]
        rw [skipWs_cons (show isWsB '"' = false from by decide)]
        simp only [List.head?_cons, List.tail_cons, reduceIte]
        rw [parseStrBody_escape _ _ _
          (by simp only [List.length_append, List.length_cons]; omega)]
        simp only [stringMk_data]
        rw [skipWs_cons (show isWsB ':' = false from by decide)]
        simp only [List.head?_cons, List.tail_cons, reduceIte]
        have h1 := (IH (wVal v) (by omega)).1 v le_rfl fu dep ('}' :: rest)
          (by omega) (by omega) (stopOK_of_numStop v _ (numStop_rbrace rest))
        rw [h1]
        simp only [skipWs_cons (show isWsB '}' = false from by decide), List.head?_cons,
          List.tail_cons, reduceIte]
        rw [if_neg (by decide)]
    | cons k2 v2 t2 =>
        rw [renderObj_cons2]
        rw [show (strLit k ++ ':' :: renderJson v ++ ',' :: renderObj (.cons k2 v2 t2))
              ++ '}' :: rest
          = '"' :: (escapeChars k.data ++ '"' :: (':' :: (renderJson v
              ++ ',' :: (renderObj (.cons k2 v2 t2) ++ '}' :: rest))))
          from by simp [strLit]]
        rw [skipWs_cons (show isWsB '"' = false from by decide)]
        simp only [List.head?_cons, List.tail_cons, reduceIte]
        rw [parseStrBody_escape _ _ _
          (by simp only [List.length_append, List.length_cons]; omega)]
        simp only [stringMk_data]
        rw [skipWs_cons (show isWsB ':' = false from by decide)]
        simp only [List.head?_cons, List.tail_cons, reduceIte]
        have h1 := (IH (wVal v) (by omega)).1 v le_rfl fu dep
          (',' :: (renderObj (.cons k2 v2 t2) ++ '}' :: rest))
          (by omega) (by omega) (stopOK_of_numStop v _ (numStop_comma _))
        rw [h1]
        simp only [skipWs_cons (show isWsB ',' = false from by decide), List.head?_cons,
          List.tail_cons, reduceIte]
        have hwtl := wObj_cons k2 v2 t2
        have hdtl := dObj_cons k2 v2 t2
        have h2 := (IH (n - 1) (by omega)).2.2 k2 v2 t2 (by omega) fu dep rest
          (by omega) (by omega)
        rw [h2]
        rfl

theorem wArr_nil : wArr .nil = 0 := by rw [wArr.eq_def]
theorem wObj_nil : wObj .nil = 0 := by rw [wObj.eq_def]

/-- Whitespace test characterized positively. -/
theorem isWsB_true_iff {c : Char} :
    isWsB c = true ↔ (c.toNat = 32 ∨ c.toNat = 9 ∨ c.toNat = 10 ∨ c.toNat = 13) := by
  simp only [isWsB, Bool.or_eq_true, beq_iff_eq, charEq_iff]
  rw [show (' ').toNat = 32 from by decide, show ('\t').toNat = 9 from by decide,
      show ('\n').toNat = 10 from by decide, show ('\r').toNat = 13 from by decide]
  tauto

theorem isDigB_false {c : Char} (h : ¬ (48 ≤ c.toNat ∧ c.toNat ≤ 57)) : isDigB c = false := by
  cases hbool : isDigB c with
  | false => rfl
  | true => exact absurd (isDigB_toNat hbool) h

theorem numStop_of_ws {tr : List Char} (h : ∀ c ∈ tr, isWsB c = true) : numStop tr := by
  intro c hc
  have hmem : c ∈ tr := by
    cases tr with
    | nil => cases hc
    | cons c0 t0 =>
        simp only [List.head?_cons] at hc
        exact (Option.some.inj hc) ▸ List.mem_cons_self c0 t0
  have hw := (isWsB_true_iff).mp (h c hmem)
  refine ⟨isDigB_false (by omega), ?_, ?_, ?_⟩
  · intro hx
    rw [charEq_iff, show ('.').toNat = 46 from by decide] at hx
    omega
  · intro hx
    rw [charEq_iff, show ('e').toNat = 101 from by decide] at hx
    omega
  · intro hx
    rw [charEq_iff, show ('E').toNat = 69 from by decide] at hx
    omega

/-- The node-count weight of a value is at most the length of its
rendering, so the length-based fuel in parseTop is always enough. -/
theorem weightBound (n : Nat) :
    (∀ j : Json, wVal j ≤ n → wVal j ≤ (renderJson j).length)
    ∧ (∀ (v : Json) (tl : JArr), wArr (.cons v tl) ≤ n →
        wArr (.cons v tl) ≤ (renderArr (.cons v tl)).length + 1)
    ∧ (∀ (k : String) (v : Json) (tl : JObj), wObj (.cons k v tl) ≤ n →
        wObj (.cons k v tl) ≤ (renderObj (.cons k v tl)).length + 1) := by
  induction n using Nat.strong_induction_on with
  | _ n IH =>
  refine ⟨?_, ?_, ?_⟩
  · intro j hw
    cases j with
    | null => rw [renderJson_null]; rw [show wVal .null = 1 from rfl]; decide
    | bool b =>
        cases b with
        | true => rw [renderJson_true]; rw [show wVal (.bool true) = 1 from rfl]; decide
        | false => rw [renderJson_false]; rw [show wVal (.bool false) = 1 from rfl]; decide
    | num neg ip frac ex =>
        rw [renderJson_num, show wVal (.num neg ip frac ex) = 1 from rfl]
        obtain ⟨c0, r0, hd, _⟩ := renderNum_head neg ip frac ex
        rw [hd]
        simp
    | str s =>
        rw [renderJson_str, show wVal (.str s) = 1 from rfl, strLit]
        simp
    | arr a =>
        cases a with
        | nil => rw [renderJson_arr, wVal_arr, wArr_nil, renderArr.eq_def]; simp
        | cons v tl =>
            rw [renderJson_arr, wVal_arr]
            have h2 := (IH (n - 1) (by
              have := wVal_arr (.cons v tl)
              omega)).2.1 v tl (by
                have := wVal_arr (.cons v tl)
                omega)
            simp only [List.length_cons, List.length_append, List.length_cons,
              List.length_nil]
            omega
    | obj m =>
        cases m with
        | nil => rw [renderJson_obj, wVal_obj, wObj_nil, renderObj.eq_def]; simp
        | cons k v tl =>
            rw [renderJson_obj, wVal_obj]
            have h3 := (IH (n - 1) (by
              have := wVal_obj (.cons k v tl)
              omega)).2.2 k v tl (by
                have := wVal_obj (.cons k v tl)
                omega)
            simp only [List.length_cons, List.length_append, List.length_cons,
              List.length_nil]
            omega
  · intro v tl hw
    have hwa := wArr_cons v tl
    have hvpos := wVal_pos v
    cases tl with
    | nil =>
        rw [renderArr_single]
        have h1 := (IH (wVal v) (by omega)).1 v le_rfl
        rw [hwa, wArr_nil]
        omega
    | cons w tw =>
        rw [renderArr_cons2]
        have h1 := (IH (wVal v) (by omega)).1 v le_rfl
        have h2 := (IH (n - 1) (by omega)).2.1 w tw (by omega)
        simp only [List.length_append, List.length_cons]
        omega
  · intro k v tl hw
    have hwa := wObj_cons k v tl
    have hvpos := wVal_pos v
    cases tl with
    | nil =>
        rw [renderObj_single]
        have h1 := (IH (wVal v) (by omega)).1 v le_rfl
        rw [hwa, wObj_nil]
        simp only [List.length_append, List.length_cons]
        omega
    | cons k2 v2 t2 =>
        rw [renderObj_cons2]
        have h1 := (IH (wVal v) (by omega)).1 v le_rfl
        have h2 := (IH (n - 1) (by omega)).2.2 k2 v2 t2 (by omega)
        simp only [List.length_append, List.length_cons]
        omega

/-- Top-level parser correctness on serializer output: a rendered value
followed by only whitespace (such as the newline terminator of
as_bytes) parses back to the value, as long as its nesting stays below
the serde_json recursion limit. -/
theorem parseTop_render (j : Json) (tr : List Char) (hdep : dVal j < 128)
    (htr : ∀ c ∈ tr, isWsB c = true) : parseTop (renderJson j ++ tr) = some j := by
  have hfuel : wVal j ≤ (renderJson j ++ tr).length + 1 := by
    have h1 := (weightBound (wVal j)).1 j le_rfl
    simp only [List.length_append]
    omega
  have hstop : stopOK j tr := stopOK_of_numStop j tr (numStop_of_ws htr)
  have h1 := (parseRenderAux (wVal j)).1 j le_rfl ((renderJson j ++ tr).length + 1) 128 tr
    hfuel hdep hstop
  unfold parseTop
  rw [h1]
  simp only [skipWs_all htr, reduceIte]

theorem natDigits_no_nl (n : Nat) : ('\n') ∉ natDigits n := by
  intro hmem
  have := isDigB_toNat (natDigits_digits n '\n' hmem)
  rw [show ('\n').toNat = 10 from by decide] at this
  omega

theorem escapeChar_no_nl (c : Char) : ('\n') ∉ escapeChar c := by
  unfold escapeChar
  split
  · decide
  split
  · decide
  split
  · decide
  split
  · decide
  split
  · decide
  split
  · decide
  split
  · decide
  split
  · next h1 h2 h3 h4 h5 h6 h7 h8 =>
      intro hmem
      simp only [List.mem_cons, List.not_mem_nil, or_false] at hmem
      rcases hmem with h | h | h | h | h | h
      · exact absurd h (by decide)
      · exact absurd h (by decide)
      · exact absurd h (by decide)
      · exact absurd h (by decide)
      · rw [charEq_iff] at h
        rw [show ('\n').toNat = 10 from by decide] at h
        unfold hexDigChar at h
        split at h <;> rw [charToNat_ofNat (by omega)] at h <;> omega
      · rw [charEq_iff] at h
        rw [show ('\n').toNat = 10 from by decide] at h
        unfold hexDigChar at h
        split at h <;> rw [charToNat_ofNat (by omega)] at h <;> omega
  · next h1 h2 h3 h4 h5 h6 h7 h8 =>
      intro hmem
      simp only [List.mem_cons, List.not_mem_nil, or_false] at hmem
      subst hmem
      exact h5 rfl

theorem strLit_no_nl (s : String) : ('\n') ∉ strLit s := by
  intro hmem
  rcases List.mem_cons.mp hmem with h | h
  · exact absurd h (by decide)
  rcases List.mem_append.mp h with h2 | h2
  · have h3 : ∃ a, a ∈ s.data ∧ ('\n') ∈ escapeChar a := by simpa [escapeChars] using h2
    rcases h3 with ⟨c, _, hml⟩
    exact escapeChar_no_nl c hml
  · exact absurd (List.mem_singleton.mp h2) (by decide)

theorem fracDigit_no_nl (d : Fin 10) : ('\n') ≠ digChar d.val := by
  intro h
  rw [charEq_iff, digChar_toNat d.isLt] at h
  rw [show ('\n').toNat = 10 from by decide] at h
  omega

theorem intChars_no_nl (i : Int) : ('\n') ∉ intChars i := by
  unfold intChars
  intro hmem
  simp only [List.mem_append] at hmem
  rcases hmem with h | h
  · split at h
    · exact absurd (List.mem_singleton.mp h) (by decide)
    · cases h
  · exact natDigits_no_nl _ h

theorem renderNum_no_nl (neg : Bool) (ip : Nat) (frac : List (Fin 10)) (ex : Option Int) :
    ('\n') ∉ renderNum neg ip frac ex := by
  unfold renderNum
  intro hmem
  simp only [List.mem_append] at hmem
  rcases hmem with ((h | h) | h) | h
  · split at h
    · exact absurd (List.mem_singleton.mp h) (by decide)
    · cases h
  · exact natDigits_no_nl _ h
  · unfold fracChars at h
    split at h
    · cases h
    · simp only [List.mem_cons, List.mem_map] at h
      rcases h with h | ⟨d, _, hh⟩
      · exact absurd h (by decide)
      · exact fracDigit_no_nl d hh.symm
  · unfold expChars at h
    split at h
    · cases h
    · simp only [List.mem_cons] at h
      rcases h with h | h
      · exact absurd h (by decide)
      · exact intChars_no_nl _ h

/-- The rendered text of a value never contains a raw newline: the
serializer escapes newlines inside strings and emits none anywhere
else.  This is the guarantee that makes newline framing sound. -/
theorem renderNoNl (n : Nat) :
    (∀ j : Json, wVal j ≤ n → ('\n') ∉ renderJson j)
    ∧ (∀ a : JArr, wArr a ≤ n → ('\n') ∉ renderArr a)
    ∧ (∀ m : JObj, wObj m ≤ n → ('\n') ∉ renderObj m) := by
  induction n using Nat.strong_induction_on with
  | _ n IH =>
  refine ⟨?_, ?_, ?_⟩
  · intro j hw
    cases j with
    | null => rw [renderJson_null]; decide
    | bool b => cases b with
        | true => rw [renderJson_true]; decide
        | false => rw [renderJson_false]; decide
    | num neg ip frac ex => rw [renderJson_num]; exact renderNum_no_nl neg ip frac ex
    | str s => rw [renderJson_str]; exact strLit_no_nl s
    | arr a =>
        rw [renderJson_arr]
        rw [wVal_arr] at hw
        have hvp : 1 ≤ wVal (Json.arr a) := wVal_pos _
        intro hmem
        simp only [List.mem_cons, List.mem_append, List.not_mem_nil, or_false] at hmem
        rcases hmem with h | h | h
        · exact absurd h (by decide)
        · exact (IH (wArr a) (by omega)).2.1 a le_rfl h
        · exact absurd h (by decide)
    | obj m =>
        rw [renderJson_obj]
        rw [wVal_obj] at hw
        intro hmem
        simp only [List.mem_cons, List.mem_append, List.not_mem_nil, or_false] at hmem
        rcases hmem with h | h | h
        · exact absurd h (by decide)
        · exact (IH (wObj m) (by omega)).2.2 m le_rfl h
        · exact absurd h (by decide)
  · intro a hw
    cases a with
    | nil => rw [renderArr.eq_def]; simp
    | cons v tl =>
        rw [wArr_cons] at hw
        have hvp := wVal_pos v
        cases tl with
        | nil =>
            rw [renderArr_single]
            exact (IH (wVal v) (by omega)).1 v le_rfl
        | cons w tw =>
            rw [renderArr_cons2]
            intro hmem
            simp only [List.mem_append, List.mem_cons] at hmem
            rcases hmem with h | h | h
            · exact (IH (wVal v) (by omega)).1 v le_rfl h
            · exact absurd h (by decide)
            · exact (IH (n - 1) (by omega)).2.1 (.cons w tw) (by omega) h
  · intro m hw
    cases m with
    | nil => rw [renderObj.eq_def]; simp
    | cons k v tl =>
        rw [wObj_cons] at hw
        have hvp := wVal_pos v
        cases tl with
        | nil =>
            rw [renderObj_single]
            intro hmem
            simp only [List.mem_append, List.mem_cons] at hmem
            rcases hmem with h | h | h
            · exact strLit_no_nl k h
            · exact absurd h (by decide)
            · exact (IH (wVal v) (by omega)).1 v le_rfl h
        | cons k2 v2 t2 =>
            rw [renderObj_cons2]
            intro hmem
            rcases List.mem_append.mp hmem with h | h
            · rcases List.mem_append.mp h with h | h
              · exact strLit_no_nl k h
              rcases List.mem_cons.mp h with h | h
              · exact absurd h (by decide)
              · exact (IH (wVal v) (by omega)).1 v le_rfl h
            · rcases List.mem_cons.mp h with h | h
              · exact absurd h (by decide)
              · exact (IH (n - 1) (by omega)).2.2 (.cons k2 v2 t2) (by omega) h

/-- No rendered value contains a newline. -/
theorem renderJson_no_nl (j : Json) : ('\n') ∉ renderJson j :=
  (renderNoNl (wVal j)).1 j le_rfl

theorem decodeU16_jnat (x : Fin 65536) : decodeU16 (jnat x.val) = some x := by
  show (if h : x.val < 65536 then some (⟨x.val, h⟩ : Fin 65536) else none) = some x
  rw [dif_pos x.isLt]

theorem decodeU64_jnat (x : Fin 18446744073709551616) : decodeU64 (jnat x.val) = some x := by
  show (if h : x.val < 18446744073709551616 then some (⟨x.val, h⟩ : Fin 18446744073709551616)
    else none) = some x
  rw [dif_pos x.isLt]

theorem decodeOptU64_jnat (x : Fin 18446744073709551616) :
    decodeOptU64 (jnat x.val) = some (some x) := by
  show (decodeU64 (jnat x.val)).map some = some (some x)
  rw [decodeU64_jnat]
  rfl

theorem decodeStrList_jstrArr (l : List String) : decodeStrList (jstrArr l) = some l := by
  show decodeStrList.go (jarrOf (l.map Json.str)) = some l
  induction l with
  | nil => rfl
  | cons s t ih =>
      show (some s).bind (fun a => (decodeStrList.go (jarrOf (t.map Json.str))).bind
        (fun r => pure (a :: r))) = _
      rw [ih]
      rfl

/-- Tree-level decode of an encoded ClientMessage recovers the value:
the serde derives are mutually inverse on the wire representation. -/
theorem decodeClient_toJson (m : ClientMessage) : decodeClient (toJsonClient m) = some m := by
  cases m with
  | Authenticate tok cn => cases cn <;> rfl
  | ChangeLayer nw sid => cases sid <;> rfl
  | RequestLayerNames sid => cases sid <;> rfl
  | RequestCurrentLayerInfo sid => cases sid <;> rfl
  | RequestCurrentLayerName sid => cases sid <;> rfl
  | ActOnFakeKey nm a sid => cases a <;> cases sid <;> rfl
  | SetMouse x y sid =>
      cases sid with
      | none =>
          show (decodeU16 (jnat x.val)).bind
            (fun a => (decodeU16 (jnat y.val)).bind
              (fun b => (some (none : Option String)).bind
                (fun s => pure (ClientMessage.SetMouse a b s)))) = _
          rw [decodeU16_jnat, decodeU16_jnat]
          rfl
      | some s =>
          show (decodeU16 (jnat x.val)).bind
            (fun a => (decodeU16 (jnat y.val)).bind
              (fun b => (some (some s)).bind
                (fun z => pure (ClientMessage.SetMouse a b z)))) = _
          rw [decodeU16_jnat, decodeU16_jnat]
          rfl
  | Reload sid => cases sid <;> rfl
  | ReloadNext sid => cases sid <;> rfl
  | ReloadPrev sid => cases sid <;> rfl
  | ReloadNum i sid =>
      cases sid with
      | none =>
          show (decodeU64 (jnat i.val)).bind
            (fun a => (some (none : Option String)).bind
              (fun s => pure (ClientMessage.ReloadNum a s))) = _
          rw [decodeU64_jnat]
          rfl
      | some s =>
          show (decodeU64 (jnat i.val)).bind
            (fun a => (some (some s)).bind
              (fun z => pure (ClientMessage.ReloadNum a z))) = _
          rw [decodeU64_jnat]
          rfl
  | ReloadFile p sid => cases sid <;> rfl

/-- Tree-level decode of an encoded ServerMessage recovers the value. -/
theorem decodeServer_toJson (m : ServerMessage) : decodeServer (toJsonServer m) = some m := by
  cases m with
  | LayerChange nw => rfl
  | LayerNames ns =>
      show (decodeStrList (jstrArr ns)).map ServerMessage.LayerNames = _
      rw [decodeStrList_jstrArr]
      rfl
  | CurrentLayerInfo nm cfg => rfl
  | ConfigFileReload nw => rfl
  | CurrentLayerName nm => rfl
  | MessagePush v => rfl
  | Error msg => rfl
  | AuthResult success sid exp =>
      cases exp with
      | none => cases sid <;> cases success <;> rfl
      | some e =>
          cases sid with
          | none =>
              show (some success).bind
                (fun a => (some (none : Option String)).bind
                  (fun b => (decodeOptU64 (jnat e.val)).bind
                    (fun c => pure (ServerMessage.AuthResult a b c)))) = _
              rw [decodeOptU64_jnat]
              rfl
          | some s =>
              show (some success).bind
                (fun a => (some (some s)).bind
                  (fun b => (decodeOptU64 (jnat e.val)).bind
                    (fun c => pure (ServerMessage.AuthResult a b c)))) = _
              rw [decodeOptU64_jnat]
              rfl
  | AuthRequired => rfl
  | SessionExpired => rfl

/-- Tree-level decode of an encoded ServerResponse recovers the value. -/
theorem decodeResponse_toJson (r : ServerResponse) : decodeResponse (toJsonResponse r) = some r := by
  cases r <;> rfl

theorem dVal_null : dVal .null = 0 := by rw [dVal.eq_def]
theorem dVal_bool (b : Bool) : dVal (.bool b) = 0 := by rw [dVal.eq_def]
theorem dVal_num (neg : Bool) (ip : Nat) (frac : List (Fin 10)) (ex : Option Int) :
    dVal (.num neg ip frac ex) = 0 := by rw [dVal.eq_def]
theorem dVal_str (s : String) : dVal (.str s) = 0 := by rw [dVal.eq_def]

/-- Encoded ClientMessage values nest exactly two container levels, far
below the serde_json recursion limit. -/
theorem clientDepth (m : ClientMessage) : dVal (toJsonClient m) < 128 := by
  cases m <;> rename_i sid <;> cases sid <;>
    simp [toJsonClient, jobj1, jobjOf, sidField, joptStr, jnat, dVal_obj, dObj_cons,
      dObj_nil, dVal_str, dVal_num, dVal_null]

/-- Encoded ServerResponse values nest one container level. -/
theorem responseDepth (r : ServerResponse) : dVal (toJsonResponse r) < 128 := by
  cases r <;>
    simp [toJsonResponse, jobjOf, dVal_obj, dObj_cons, dObj_nil, dVal_str]

/-- Round trip for ClientMessage, unconditionally: encode with the
derived Serialize, decode with the FromStr instance. -/
theorem clientRoundTrip_eq (m : ClientMessage) : clientRoundTrip m = some m := by
  unfold clientRoundTrip clientFromStr
  rw [show renderJson (toJsonClient m) = renderJson (toJsonClient m) ++ []
    from (List.append_nil _).symm]
  rw [parseTop_render _ [] (clientDepth m) (by intro c hc; cases hc)]
  show decodeClient (toJsonClient m) = some m
  exact decodeClient_toJson m

/-- Round trip for ServerResponse, unconditionally. -/
theorem responseRoundTrip_eq (r : ServerResponse) : responseRoundTrip r = some r := by
  unfold responseRoundTrip responseFromStr responseAsBytes
  rw [parseTop_render _ ['\n'] (responseDepth r) (by intro c hc; simp at hc; rw [hc]; rfl)]
  show decodeResponse (toJsonResponse r) = some r
  exact decodeResponse_toJson r

/-- Round trip for ServerMessage, for every value whose encoding stays
below the serde_json recursion limit of 128 nested containers. -/
theorem serverRoundTrip_eq (m : ServerMessage) (h : dVal (toJsonServer m) < 128) :
    serverRoundTrip m = some m := by
  unfold serverRoundTrip serverFromStr serverAsBytes
  rw [parseTop_render _ ['\n'] h (by intro c hc; simp at hc; rw [hc]; rfl)]
  show decodeServer (toJsonServer m) = some m
  exact decodeServer_toJson m
/-! Shared helper lemmas for the claim theorems. -/

theorem serverFromStr_render (m : ServerMessage) (h : dVal (toJsonServer m) < 128) :
    serverFromStr (renderJson (toJsonServer m)) = some m := by
  unfold serverFromStr
  rw [show renderJson (toJsonServer m) = renderJson (toJsonServer m) ++ []
    from (List.append_nil _).symm]
  rw [parseTop_render _ [] h (by intro c hc; cases hc)]
  show decodeServer (toJsonServer m) = some m
  exact decodeServer_toJson m

theorem responseFromStr_render (r : ServerResponse) :
    responseFromStr (renderJson (toJsonResponse r)) = some r := by
  unfold responseFromStr
  rw [show renderJson (toJsonResponse r) = renderJson (toJsonResponse r) ++ []
    from (List.append_nil _).symm]
  rw [parseTop_render _ [] (responseDepth r) (by intro c hc; cases hc)]
  show decodeResponse (toJsonResponse r) = some r
  exact decodeResponse_toJson r

/-- Claim C1: encode-then-decode is the identity for every ClientMessage
(via its FromStr instance) and every ServerResponse; for ServerMessage it
is the identity exactly on the values whose serialization stays below the
serde_json recursion limit of 128 nested containers — the limit applies
only on the decode side, so a MessagePush carrying a deeply nested
serde_json::Value serializes fine but fails to parse back (see the
counterexample), and the unqualified round-trip claim is false. -/
theorem C1_roundtrip :
    (∀ m : ClientMessage, clientRoundTrip m = some m) ∧
    (∀ r : ServerResponse, responseRoundTrip r = some r) ∧
    (∀ m : ServerMessage, dVal (toJsonServer m) < 128 → serverRoundTrip m = some m) :=
  ⟨clientRoundTrip_eq, responseRoundTrip_eq, serverRoundTrip_eq⟩

theorem C1_witness :
    dVal (toJsonServer .AuthRequired) < 128 ∧
      serverRoundTrip .AuthRequired = some .AuthRequired :=
  ⟨by decide, C1_roundtrip.2.2 .AuthRequired (by decide)⟩

/-- Claim C1, counterexample: a ServerMessage::MessagePush whose payload
is a 126-deep nested array serializes to 128 nested containers; decoding
its own wire form hits the serde_json recursion limit and fails, so
decode(encode(v)) is not v. -/
theorem C1_counterexample :
    serverRoundTrip (.MessagePush (deepArr 126)) = none ∧
      dVal (toJsonServer (.MessagePush (deepArr 126))) = 128 := ⟨by rfl, by decide⟩

/-- Claim C2: ServerResponse::Ok.as_bytes() is exactly the bytes of
the text with status Ok followed by one newline, and
ServerResponse::Error with msg "test" is exactly the bytes of the text
with status Error and msg "test" followed by one newline. -/
theorem C2_response_bytes :
    responseAsBytes .Ok = ("\x7b\"status\":\"Ok\"\x7d\n").data ∧
    responseAsBytes (.Error "test") =
      ("\x7b\"status\":\"Error\",\"msg\":\"test\"\x7d\n").data := ⟨rfl, rfl⟩

/-- Claim C4: the AuthResult variant carries no skip_serializing_if
attribute on its Option fields (lib.rs lines 14 to 18), so encoding
AuthResult with success false and both options None writes both keys
with null values; the value still round-trips, but the claim that the
wire form contains neither key is false. -/
theorem C4_authresult :
    serverRoundTrip (.AuthResult false none none) =
      some (.AuthResult false none none) ∧
    toJsonServer (.AuthResult false none none) =
      jobj1 "AuthResult" (.obj (jobjOf
        [("success", .bool false), ("session_id", .null),
         ("expires_in_seconds", .null)])) := ⟨by rfl, rfl⟩

/-- Claim C4, counterexample: the encoded wire form of AuthResult with
both optional fields None contains the session_id key and the
expires_in_seconds key (with null values), contradicting the claimed
key omission. -/
theorem C4_counterexample :
    serverAsBytes (.AuthResult false none none) =
      ("\x7b\"AuthResult\":\x7b\"success\":false,\"session_id\":null,\"expires_in_seconds\":null\x7d\x7d\n").data ∧
    hasSub ("\"session_id\"").data (serverAsBytes (.AuthResult false none none)) = true ∧
    hasSub ("\"expires_in_seconds\"").data (serverAsBytes (.AuthResult false none none)) = true :=
  ⟨rfl, by decide, by decide⟩

/-- Claim C6: encoding is total for ServerMessage and ServerResponse;
the serde_json::to_vec call inside as_bytes, whose failure the code
turns into a panic with expect, never fails on these derived Serialize
impls (modelled by the checked encoders, whose none case is the panic
branch). -/
theorem C6_encode_total :
    (∀ m : ServerMessage, serverAsBytesChecked m = some (serverAsBytes m)) ∧
    (∀ r : ServerResponse, responseAsBytesChecked r = some (responseAsBytes r)) :=
  ⟨fun _ => rfl, fun _ => rfl⟩
/-- Claim C3: encoding Reload with session_id None yields a payload
object with no session_id key (the skip_serializing_if attribute), that
payload decodes back to session_id None, and in every non-Authenticate
variant an absent session_id is encoded by key omission. -/
theorem C3_session_id_omission :
    toJsonClient (.Reload none) = jobj1 "Reload" (.obj .nil) ∧
    clientRoundTrip (.Reload none) = some (.Reload none) ∧
    (∀ m : ClientMessage, isAuthenticate m = false → m.sessionId = none →
      ∃ p, toJsonClient m = jobj1 (clientTag m) (.obj p) ∧ "session_id" ∉ jkeys p) := by
  refine ⟨rfl, clientRoundTrip_eq _, ?_⟩
  intro m h1 h2
  cases m <;> simp [isAuthenticate] at h1 <;>
    simp [ClientMessage.sessionId] at h2 <;> subst h2 <;>
    exact ⟨_, rfl, by simp [jobjOf, sidField, jkeys]⟩

theorem C3_witness :
    ∃ p, toJsonClient (.Reload none) = jobj1 (clientTag (.Reload none)) (.obj p) ∧
      "session_id" ∉ jkeys p :=
  C3_session_id_omission.2.2 (.Reload none) rfl rfl
theorem clientPayloadDecode_notin {tag : String} (h : tag ∉ clientTags) :
    clientPayloadDecode tag = none := by
  simp only [clientTags, List.mem_cons, List.not_mem_nil, or_false, not_or] at h
  obtain ⟨h1, h2, h3, h4, h5, h6, h7, h8, h9, h10, h11, h12⟩ := h
  simp [clientPayloadDecode, h1, h2, h3, h4, h5, h6, h7, h8, h9, h10, h11, h12]

theorem serverPayloadDecode_notin {tag : String} (h : tag ∉ serverTags) :
    serverPayloadDecode tag = none := by
  simp only [serverTags, List.mem_cons, List.not_mem_nil, or_false, not_or] at h
  obtain ⟨h1, h2, h3, h4, h5, h6, h7, h8, h9, h10⟩ := h
  simp [serverPayloadDecode, h1, h2, h3, h4, h5, h6, h7, h8, h9, h10]

/-- Claim C5: a discriminator that is not a declared variant name is a
decode error for all three top-level types (including the bare-string
form that ServerMessage unit variants use), and the empty object with
no discriminator fails to decode for all three. -/
theorem C5_unknown_tag :
    clientFromStr ("\x7b\x7d").data = none ∧
    serverFromStr ("\x7b\x7d").data = none ∧
    responseFromStr ("\x7b\x7d").data = none ∧
    (∀ tag p, tag ∉ clientTags → decodeClient (jobj1 tag p) = none) ∧
    (∀ tag p, tag ∉ serverTags → decodeServer (jobj1 tag p) = none) ∧
    (∀ s, s ∉ serverTags → decodeServer (.str s) = none) ∧
    (∀ ms s, fieldOcc ms "status" = [.str s] → s ∉ responseTags →
      decodeResponse (.obj ms) = none) := by
  refine ⟨rfl, rfl, rfl, ?_, ?_, ?_, ?_⟩
  · intro tag p h
    show (match clientPayloadDecode tag with
          | some d => d p
          | none => none) = none
    rw [clientPayloadDecode_notin h]
  · intro tag p h
    show (match serverPayloadDecode tag with
          | some d => d p
          | none => none) = none
    rw [serverPayloadDecode_notin h]
  · intro s h
    simp only [serverTags, List.mem_cons, List.not_mem_nil, or_false, not_or] at h
    show (if s = "AuthRequired" then some ServerMessage.AuthRequired
          else if s = "SessionExpired" then some ServerMessage.SessionExpired
          else none) = none
    rw [if_neg h.2.2.2.2.2.2.2.2.1, if_neg h.2.2.2.2.2.2.2.2.2]
  · intro ms s hs h
    simp only [responseTags, List.mem_cons, List.not_mem_nil, or_false, not_or] at h
    show (match fieldOcc ms "status" with
          | [.str s] =>
              if s = "Ok" then some ServerResponse.Ok
              else if s = "Error" then
                (reqF (removeKey ms "status") "msg" decodeString).map ServerResponse.Error
              else none
          | _ => none) = none
    rw [hs]
    simp [h.1, h.2]

theorem C5_witness :
    decodeClient (jobj1 "Bogus" (.obj .nil)) = none ∧
    decodeServer (jobj1 "Bogus" (.obj .nil)) = none ∧
    decodeServer (.str "Bogus") = none ∧
    decodeResponse (.obj (.cons "status" (.str "Bogus") .nil)) = none :=
  ⟨C5_unknown_tag.2.2.2.1 "Bogus" (.obj .nil) (by decide),
   C5_unknown_tag.2.2.2.2.1 "Bogus" (.obj .nil) (by decide),
   C5_unknown_tag.2.2.2.2.2.1 "Bogus" (by decide),
   C5_unknown_tag.2.2.2.2.2.2 (.cons "status" (.str "Bogus") .nil) "Bogus" rfl
     (by decide)⟩
/-- Claim C9: the x and y fields of SetMouse deserialize as u16: every
integer literal from 0 to 65535 is accepted and recovered exactly, an
integer at or above 65536 is rejected, any literal with a fraction, an
exponent or a minus sign is rejected, and concretely a SetMouse payload
with x equal to 1.5, to -1 or to 70000 fails to decode while x 1, y 2
succeeds. -/
theorem C9_setmouse_u16 :
    (∀ x : Fin 65536, decodeU16 (jnat x.val) = some x) ∧
    (∀ n : Nat, 65536 ≤ n → decodeU16 (jnat n) = none) ∧
    (∀ neg ip ex d frac, decodeU16 (.num neg ip (d :: frac) ex) = none) ∧
    (∀ neg ip frac e, decodeU16 (.num neg ip frac (some e)) = none) ∧
    (∀ ip frac ex, decodeU16 (.num true ip frac ex) = none) ∧
    clientFromStr ("\x7b\"SetMouse\":\x7b\"x\":1.5,\"y\":2\x7d\x7d").data = none ∧
    clientFromStr ("\x7b\"SetMouse\":\x7b\"x\":-1,\"y\":2\x7d\x7d").data = none ∧
    clientFromStr ("\x7b\"SetMouse\":\x7b\"x\":70000,\"y\":2\x7d\x7d").data = none ∧
    clientFromStr ("\x7b\"SetMouse\":\x7b\"x\":1,\"y\":2\x7d\x7d").data =
      some (.SetMouse 1 2 none) := by
  refine ⟨decodeU16_jnat, ?_, ?_, ?_, ?_, rfl, rfl, rfl, rfl⟩
  · intro n h
    show (if hlt : n < 65536 then some (⟨n, hlt⟩ : Fin 65536) else none) = none
    rw [dif_neg (by omega)]
  · intro neg ip ex d frac
    cases neg <;> cases ex <;> rfl
  · intro neg ip frac e
    cases neg <;> cases frac <;> rfl
  · intro ip frac ex
    cases frac <;> cases ex <;> rfl

theorem C9_witness : decodeU16 (jnat 70000) = none :=
  C9_setmouse_u16.2.1 70000 (by decide)
theorem frames_two {a b : List Char} (ha : ('\n') ∉ a) (hb : ('\n') ∉ b) :
    frames ((a ++ ['\n']) ++ (b ++ ['\n'])) = [a, b] := by
  have h1 : (a ++ ['\n']) ++ (b ++ ['\n']) = [('\n')].intercalate [a, b, []] := by
    simp [List.intercalate, List.intersperse]
  have hx : ∀ l ∈ [a, b, ([] : List Char)], ('\n') ∉ l := by
    intro l hl
    rcases List.mem_cons.mp hl with rfl | hl
    · exact ha
    rcases List.mem_cons.mp hl with rfl | hl
    · exact hb
    rcases List.mem_cons.mp hl with rfl | hl
    · simp
    · cases hl
  rw [frames, h1, List.splitOn_intercalate [a, b, []] ('\n') hx (by simp)]
  rfl

/-- Claim C7: as_bytes output is the rendered payload followed by
exactly one newline byte and the payload itself never contains a raw
newline (serde_json escapes newlines inside strings), so splitting the
concatenation of two encoded messages on newline bytes recovers exactly
the two payloads; each payload decodes back to its message for every
ServerResponse pair, and for ServerMessage pairs whose encodings stay
below the serde_json recursion limit — a MessagePush nested past the
limit frames correctly but fails to decode (see the counterexample), so
the unqualified decode part of the claim is false. -/
theorem C7_newline_framing :
    (∀ m : ServerMessage, serverAsBytes m = renderJson (toJsonServer m) ++ ['\n'] ∧
      ('\n') ∉ renderJson (toJsonServer m)) ∧
    (∀ r : ServerResponse, responseAsBytes r = renderJson (toJsonResponse r) ++ ['\n'] ∧
      ('\n') ∉ renderJson (toJsonResponse r)) ∧
    (∀ m1 m2 : ServerMessage,
      frames (serverAsBytes m1 ++ serverAsBytes m2) =
        [renderJson (toJsonServer m1), renderJson (toJsonServer m2)]) ∧
    (∀ r1 r2 : ServerResponse,
      (frames (responseAsBytes r1 ++ responseAsBytes r2)).map responseFromStr =
        [some r1, some r2]) ∧
    (∀ m1 m2 : ServerMessage, dVal (toJsonServer m1) < 128 → dVal (toJsonServer m2) < 128 →
      (frames (serverAsBytes m1 ++ serverAsBytes m2)).map serverFromStr =
        [some m1, some m2]) := by
  refine ⟨fun m => ⟨rfl, renderJson_no_nl _⟩, fun r => ⟨rfl, renderJson_no_nl _⟩,
    ?_, ?_, ?_⟩
  · intro m1 m2
    exact frames_two (renderJson_no_nl _) (renderJson_no_nl _)
  · intro r1 r2
    rw [show responseAsBytes r1 ++ responseAsBytes r2 =
      (renderJson (toJsonResponse r1) ++ ['\n']) ++
        (renderJson (toJsonResponse r2) ++ ['\n']) from rfl]
    rw [frames_two (renderJson_no_nl _) (renderJson_no_nl _)]
    rw [List.map_cons, List.map_cons, List.map_nil]
    rw [responseFromStr_render, responseFromStr_render]
  · intro m1 m2 h1 h2
    rw [show serverAsBytes m1 ++ serverAsBytes m2 =
      (renderJson (toJsonServer m1) ++ ['\n']) ++
        (renderJson (toJsonServer m2) ++ ['\n']) from rfl]
    rw [frames_two (renderJson_no_nl _) (renderJson_no_nl _)]
    rw [List.map_cons, List.map_cons, List.map_nil]
    rw [serverFromStr_render m1 h1, serverFromStr_render m2 h2]

theorem C7_witness :
    (frames (serverAsBytes .AuthRequired ++ serverAsBytes (.Error "x"))).map serverFromStr =
      [some .AuthRequired, some (.Error "x")] :=
  C7_newline_framing.2.2.2.2 .AuthRequired (.Error "x") (by decide) (by decide)

/-- Claim C7, counterexample: concatenating the encoding of a
MessagePush nested past the serde_json recursion limit with another
message still splits into exactly the two payloads, but the first
payload does not decode back to its message, so the claimed decode of
every split frame fails. -/
theorem C7_counterexample :
    frames (serverAsBytes (.MessagePush (deepArr 126)) ++ serverAsBytes .AuthRequired) =
      [renderJson (toJsonServer (.MessagePush (deepArr 126))),
       renderJson (toJsonServer .AuthRequired)] ∧
    serverFromStr (renderJson (toJsonServer (.MessagePush (deepArr 126)))) = none :=
  ⟨frames_two (renderJson_no_nl _) (renderJson_no_nl _), by rfl⟩
theorem fieldOcc_jappend {k : String} (v : Json) {f : String} (h : ¬ k = f) :
    (ms : JObj) → fieldOcc (jappend ms k v) f = fieldOcc ms f
  | .nil => by simp [jappend, fieldOcc, h]
  | .cons k0 v0 tl => by
      by_cases hk : k0 = f <;> simp [jappend, fieldOcc, hk, fieldOcc_jappend v h tl]

theorem reqF_jappend {α : Type} {ms : JObj} {k : String} {v : Json} {f : String}
    (dec : Json → Option α) (h : ¬ k = f) :
    reqF (jappend ms k v) f dec = reqF ms f dec := by
  unfold reqF
  rw [fieldOcc_jappend v h]

theorem optF_jappend {α : Type} {ms : JObj} {k : String} {v : Json} {f : String}
    (dec : Json → Option (Option α)) (h : ¬ k = f) :
    optF (jappend ms k v) f dec = optF ms f dec := by
  unfold optF
  rw [fieldOcc_jappend v h]

theorem fieldOcc_removeKey (k : String) :
    (ms : JObj) → fieldOcc (removeKey ms k) k = []
  | .nil => rfl
  | .cons k0 v0 tl => by
      by_cases hk : k0 = k <;> simp [removeKey, fieldOcc, hk, fieldOcc_removeKey k tl]

theorem fieldOcc_removeKey_ne {k f : String} (h : ¬ k = f) :
    (ms : JObj) → fieldOcc (removeKey ms k) f = fieldOcc ms f
  | .nil => rfl
  | .cons k0 v0 tl => by
      have ih := fieldOcc_removeKey_ne h tl
      have h2 : ¬ f = k := fun hh => h hh.symm
      by_cases hk : k0 = k
      · subst hk
        simp [removeKey, fieldOcc, h, ih]
      · by_cases hf : k0 = f <;> simp [removeKey, fieldOcc, hk, hf, h2, ih]

theorem reqF_removeKey_self {α : Type} (ms : JObj) (k : String) (dec : Json → Option α) :
    reqF (removeKey ms k) k dec = none := by
  unfold reqF
  rw [fieldOcc_removeKey k]

theorem reqF_removeKey_ne {α : Type} {ms : JObj} {k f : String}
    (dec : Json → Option α) (h : ¬ k = f) :
    reqF (removeKey ms k) f dec = reqF ms f dec := by
  unfold reqF
  rw [fieldOcc_removeKey_ne h]

theorem optF_removeKey_ne {α : Type} {ms : JObj} {k f : String}
    (dec : Json → Option (Option α)) (h : ¬ k = f) :
    optF (removeKey ms k) f dec = optF ms f dec := by
  unfold optF
  rw [fieldOcc_removeKey_ne h]

theorem pAuthenticate_shape {p : Json} {m : ClientMessage}
    (h : pAuthenticate p = some m) : clientTag m = "Authenticate" := by
  cases p <;> simp only [pAuthenticate, Option.bind_eq_bind, Option.bind_eq_some,
    Option.pure_def, Option.some_inj, reduceCtorEq] at h
  obtain ⟨tok, _, cn, _, rfl⟩ := h
  rfl
theorem pChangeLayer_shape {p : Json} {m : ClientMessage}
    (h : pChangeLayer p = some m) : clientTag m = "ChangeLayer" := by
  cases p <;> simp only [pChangeLayer, Option.bind_eq_bind, Option.bind_eq_some,
    Option.pure_def, Option.some_inj, reduceCtorEq] at h
  obtain ⟨nw, _, sid, _, rfl⟩ := h
  rfl

theorem pSidOnly_shape {mk : Option String → ClientMessage} {p : Json} {m : ClientMessage}
    (h : pSidOnly mk p = some m) : ∃ s, m = mk s := by
  cases p <;> simp only [pSidOnly, Option.bind_eq_bind, Option.bind_eq_some,
    Option.pure_def, Option.some_inj, reduceCtorEq] at h
  obtain ⟨sid, _, rfl⟩ := h
  exact ⟨sid, rfl⟩

theorem pActOnFakeKey_shape {p : Json} {m : ClientMessage}
    (h : pActOnFakeKey p = some m) : clientTag m = "ActOnFakeKey" := by
  cases p <;> simp only [pActOnFakeKey, Option.bind_eq_bind, Option.bind_eq_some,
    Option.pure_def, Option.some_inj, reduceCtorEq] at h
  obtain ⟨nm, _, a, _, sid, _, rfl⟩ := h
  rfl

theorem pSetMouse_shape {p : Json} {m : ClientMessage}
    (h : pSetMouse p = some m) : clientTag m = "SetMouse" := by
  cases p <;> simp only [pSetMouse, Option.bind_eq_bind, Option.bind_eq_some,
    Option.pure_def, Option.some_inj, reduceCtorEq] at h
  obtain ⟨x, _, y, _, sid, _, rfl⟩ := h
  rfl

theorem pReloadNum_shape {p : Json} {m : ClientMessage}
    (h : pReloadNum p = some m) : clientTag m = "ReloadNum" := by
  cases p <;> simp only [pReloadNum, Option.bind_eq_bind, Option.bind_eq_some,
    Option.pure_def, Option.some_inj, reduceCtorEq] at h
  obtain ⟨i, _, sid, _, rfl⟩ := h
  rfl

theorem pReloadFile_shape {p : Json} {m : ClientMessage}
    (h : pReloadFile p = some m) : clientTag m = "ReloadFile" := by
  cases p <;> simp only [pReloadFile, Option.bind_eq_bind, Option.bind_eq_some,
    Option.pure_def, Option.some_inj, reduceCtorEq] at h
  obtain ⟨pa, _, sid, _, rfl⟩ := h
  rfl

theorem decodeClient_shape {j : Json} {m : ClientMessage} (h : decodeClient j = some m) :
    ∃ p, j = jobj1 (clientTag m) p := by
  cases j with
  | null => exact Option.noConfusion h
  | bool b => exact Option.noConfusion h
  | num a b c d => exact Option.noConfusion h
  | str s => exact Option.noConfusion h
  | arr a => exact Option.noConfusion h
  | obj ms =>
    cases ms with
    | nil => exact Option.noConfusion h
    | cons tag p tl =>
      cases tl with
      | cons k2 v2 t2 => exact Option.noConfusion h
      | nil =>
        by_cases h1 : tag = "Authenticate"
        · subst h1
          replace h : pAuthenticate p = some m := h
          exact ⟨p, by rw [pAuthenticate_shape h]; rfl⟩
        by_cases h2 : tag = "ChangeLayer"
        · subst h2
          replace h : pChangeLayer p = some m := h
          exact ⟨p, by rw [pChangeLayer_shape h]; rfl⟩
        by_cases h3 : tag = "RequestLayerNames"
        · subst h3
          replace h : pSidOnly .RequestLayerNames p = some m := h
          obtain ⟨s, rfl⟩ := pSidOnly_shape h
          exact ⟨p, rfl⟩
        by_cases h4 : tag = "RequestCurrentLayerInfo"
        · subst h4
          replace h : pSidOnly .RequestCurrentLayerInfo p = some m := h
          obtain ⟨s, rfl⟩ := pSidOnly_shape h
          exact ⟨p, rfl⟩
        by_cases h5 : tag = "RequestCurrentLayerName"
        · subst h5
          replace h : pSidOnly .RequestCurrentLayerName p = some m := h
          obtain ⟨s, rfl⟩ := pSidOnly_shape h
          exact ⟨p, rfl⟩
        by_cases h6 : tag = "ActOnFakeKey"
        · subst h6
          replace h : pActOnFakeKey p = some m := h
          exact ⟨p, by rw [pActOnFakeKey_shape h]; rfl⟩
        by_cases h7 : tag = "SetMouse"
        · subst h7
          replace h : pSetMouse p = some m := h
          exact ⟨p, by rw [pSetMouse_shape h]; rfl⟩
        by_cases h8 : tag = "Reload"
        · subst h8
          replace h : pSidOnly .Reload p = some m := h
          obtain ⟨s, rfl⟩ := pSidOnly_shape h
          exact ⟨p, rfl⟩
        by_cases h9 : tag = "ReloadNext"
        · subst h9
          replace h : pSidOnly .ReloadNext p = some m := h
          obtain ⟨s, rfl⟩ := pSidOnly_shape h
          exact ⟨p, rfl⟩
        by_cases h10 : tag = "ReloadPrev"
        · subst h10
          replace h : pSidOnly .ReloadPrev p = some m := h
          obtain ⟨s, rfl⟩ := pSidOnly_shape h
          exact ⟨p, rfl⟩
        by_cases h11 : tag = "ReloadNum"
        · subst h11
          replace h : pReloadNum p = some m := h
          exact ⟨p, by rw [pReloadNum_shape h]; rfl⟩
        by_cases h12 : tag = "ReloadFile"
        · subst h12
          replace h : pReloadFile p = some m := h
          exact ⟨p, by rw [pReloadFile_shape h]; rfl⟩
        have hmem : tag ∉ clientTags := by
          simp [clientTags, h1, h2, h3, h4, h5, h6, h7, h8, h9, h10, h11, h12]
        rw [show decodeClient (.obj (.cons tag p .nil)) =
          (match clientPayloadDecode tag with
           | some d => d p
           | none => none) from rfl, clientPayloadDecode_notin hmem] at h
        exact Option.noConfusion h

theorem bind_none_of {α β : Type} (o : Option α) (f : α → Option β)
    (h : ∀ a, f a = none) : o.bind f = none := by
  cases o with
  | none => rfl
  | some a => exact h a
/-- Claim C8: ClientMessage::from_str is a total function into a
Result, modelled as an Option-valued function: a successful decode
happens only on a JSON document that is a one-key object keyed by the
declared discriminator of the decoded value, every serde_json encoding
of a ClientMessage value decodes back to it, and removing any required
field from an encoded payload makes decoding fail (the error case,
never a default value). -/
theorem C8_fromstr_contract :
    (∀ cs m, clientFromStr cs = some m →
      ∃ j p, parseTop cs = some j ∧ decodeClient j = some m ∧
        j = jobj1 (clientTag m) p) ∧
    (∀ m : ClientMessage, clientFromStr (renderJson (toJsonClient m)) = some m) ∧
    (∀ m : ClientMessage, ∀ k ∈ clientRequiredFields m, ∀ ms : JObj,
      toJsonClient m = jobj1 (clientTag m) (.obj ms) →
      decodeClient (jobj1 (clientTag m) (.obj (removeKey ms k))) = none) := by
  refine ⟨?_, ?_, ?_⟩
  · intro cs m h
    unfold clientFromStr at h
    cases hp : parseTop cs with
    | none => rw [hp] at h; exact Option.noConfusion h
    | some j =>
        rw [hp] at h
        replace h : decodeClient j = some m := h
        obtain ⟨p, hj⟩ := decodeClient_shape h
        exact ⟨j, p, rfl, h, hj⟩
  · intro m
    exact clientRoundTrip_eq m
  · intro m k hk ms hms
    cases m with
    | Authenticate tok cn =>
        simp only [clientRequiredFields, List.mem_cons, List.not_mem_nil, or_false] at hk
        subst hk
        simp only [toJsonClient, clientTag, jobj1, jobjOf, Json.obj.injEq,
          JObj.cons.injEq, true_and, and_true] at hms
        subst hms
        rfl
    | ChangeLayer nw sid =>
        simp only [clientRequiredFields, List.mem_cons, List.not_mem_nil, or_false] at hk
        subst hk
        cases sid <;>
          (simp only [toJsonClient, clientTag, jobj1, jobjOf, sidField, Json.obj.injEq,
            JObj.cons.injEq, true_and, and_true] at hms
           subst hms
           rfl)
    | RequestLayerNames sid => simp [clientRequiredFields] at hk
    | RequestCurrentLayerInfo sid => simp [clientRequiredFields] at hk
    | RequestCurrentLayerName sid => simp [clientRequiredFields] at hk
    | ActOnFakeKey nm a sid =>
        simp only [clientRequiredFields, List.mem_cons, List.not_mem_nil, or_false] at hk
        cases sid <;>
          (simp only [toJsonClient, clientTag, jobj1, jobjOf, sidField, Json.obj.injEq,
            JObj.cons.injEq, true_and, and_true] at hms
           subst hms) <;>
        rcases hk with rfl | rfl
        · rfl
        · rfl
        · rfl
        · rfl
    | SetMouse x y sid =>
        simp only [clientRequiredFields, List.mem_cons, List.not_mem_nil, or_false] at hk
        cases sid <;>
          (simp only [toJsonClient, clientTag, jobj1, jobjOf, sidField, Json.obj.injEq,
            JObj.cons.injEq, true_and, and_true] at hms
           subst hms) <;>
        rcases hk with rfl | rfl
        · rfl
        · exact bind_none_of _ _ (fun v => rfl)
        · rfl
        · exact bind_none_of _ _ (fun v => rfl)
    | Reload sid => simp [clientRequiredFields] at hk
    | ReloadNext sid => simp [clientRequiredFields] at hk
    | ReloadPrev sid => simp [clientRequiredFields] at hk
    | ReloadNum i sid =>
        simp only [clientRequiredFields, List.mem_cons, List.not_mem_nil, or_false] at hk
        subst hk
        cases sid <;>
          (simp only [toJsonClient, clientTag, jobj1, jobjOf, sidField, Json.obj.injEq,
            JObj.cons.injEq, true_and, and_true] at hms
           subst hms
           rfl)
    | ReloadFile pa sid =>
        simp only [clientRequiredFields, List.mem_cons, List.not_mem_nil, or_false] at hk
        subst hk
        cases sid <;>
          (simp only [toJsonClient, clientTag, jobj1, jobjOf, sidField, Json.obj.injEq,
            JObj.cons.injEq, true_and, and_true] at hms
           subst hms
           rfl)

theorem C8_witness :
    (∃ j p, parseTop ("\x7b\"Reload\":\x7b\x7d\x7d").data = some j ∧
      decodeClient j = some (.Reload none) ∧
      j = jobj1 (clientTag (.Reload none)) p) ∧
    decodeClient (jobj1 (clientTag (.SetMouse 1 2 none))
      (.obj (removeKey (jobjOf [("x", jnat 1), ("y", jnat 2)]) "y"))) = none :=
  ⟨C8_fromstr_contract.1 ("\x7b\"Reload\":\x7b\x7d\x7d").data (.Reload none) (by rfl),
   C8_fromstr_contract.2.2 (.SetMouse 1 2 none) "y" (by decide)
     (jobjOf [("x", jnat 1), ("y", jnat 2)]) rfl⟩
theorem obind_congr {α β : Type} {o : Option α} {f g : α → Option β}
    (h : ∀ a, f a = g a) : o.bind f = o.bind g := by
  cases o with
  | none => rfl
  | some a => exact h a

theorem pAuthenticate_jappend {ms : JObj} {k : String} {v : Json}
    (h1 : ¬ k = "token") (h2 : ¬ k = "client_name") :
    pAuthenticate (.obj (jappend ms k v)) = pAuthenticate (.obj ms) := by
  show (reqF (jappend ms k v) "token" decodeString).bind _ =
    (reqF ms "token" decodeString).bind _
  rw [reqF_jappend decodeString h1]
  refine obind_congr fun tok => ?_
  rw [optF_jappend decodeOptString h2]

theorem pChangeLayer_jappend {ms : JObj} {k : String} {v : Json}
    (h1 : ¬ k = "new") (h2 : ¬ k = "session_id") :
    pChangeLayer (.obj (jappend ms k v)) = pChangeLayer (.obj ms) := by
  show (reqF (jappend ms k v) "new" decodeString).bind _ =
    (reqF ms "new" decodeString).bind _
  rw [reqF_jappend decodeString h1]
  refine obind_congr fun nw => ?_
  rw [optF_jappend decodeOptString h2]

theorem pSidOnly_jappend {mk : Option String → ClientMessage} {ms : JObj} {k : String}
    {v : Json} (h : ¬ k = "session_id") :
    pSidOnly mk (.obj (jappend ms k v)) = pSidOnly mk (.obj ms) := by
  show (optF (jappend ms k v) "session_id" decodeOptString).bind _ =
    (optF ms "session_id" decodeOptString).bind _
  rw [optF_jappend decodeOptString h]

theorem pActOnFakeKey_jappend {ms : JObj} {k : String} {v : Json}
    (h1 : ¬ k = "name") (h2 : ¬ k = "action") (h3 : ¬ k = "session_id") :
    pActOnFakeKey (.obj (jappend ms k v)) = pActOnFakeKey (.obj ms) := by
  show (reqF (jappend ms k v) "name" decodeString).bind _ =
    (reqF ms "name" decodeString).bind _
  rw [reqF_jappend decodeString h1]
  refine obind_congr fun nm => ?_
  show (reqF (jappend ms k v) "action" decodeFka).bind _ =
    (reqF ms "action" decodeFka).bind _
  rw [reqF_jappend decodeFka h2]
  refine obind_congr fun a => ?_
  rw [optF_jappend decodeOptString h3]

theorem pSetMouse_jappend {ms : JObj} {k : String} {v : Json}
    (h1 : ¬ k = "x") (h2 : ¬ k = "y") (h3 : ¬ k = "session_id") :
    pSetMouse (.obj (jappend ms k v)) = pSetMouse (.obj ms) := by
  show (reqF (jappend ms k v) "x" decodeU16).bind _ =
    (reqF ms "x" decodeU16).bind _
  rw [reqF_jappend decodeU16 h1]
  refine obind_congr fun x => ?_
  show (reqF (jappend ms k v) "y" decodeU16).bind _ =
    (reqF ms "y" decodeU16).bind _
  rw [reqF_jappend decodeU16 h2]
  refine obind_congr fun y => ?_
  rw [optF_jappend decodeOptString h3]

theorem pReloadNum_jappend {ms : JObj} {k : String} {v : Json}
    (h1 : ¬ k = "index") (h2 : ¬ k = "session_id") :
    pReloadNum (.obj (jappend ms k v)) = pReloadNum (.obj ms) := by
  show (reqF (jappend ms k v) "index" decodeU64).bind _ =
    (reqF ms "index" decodeU64).bind _
  rw [reqF_jappend decodeU64 h1]
  refine obind_congr fun i => ?_
  rw [optF_jappend decodeOptString h2]

theorem pReloadFile_jappend {ms : JObj} {k : String} {v : Json}
    (h1 : ¬ k = "path") (h2 : ¬ k = "session_id") :
    pReloadFile (.obj (jappend ms k v)) = pReloadFile (.obj ms) := by
  show (reqF (jappend ms k v) "path" decodeString).bind _ =
    (reqF ms "path" decodeString).bind _
  rw [reqF_jappend decodeString h1]
  refine obind_congr fun pa => ?_
  rw [optF_jappend decodeOptString h2]

theorem sLayerChange_jappend {ms : JObj} {k : String} {v : Json} (h : ¬ k = "new") :
    sLayerChange (.obj (jappend ms k v)) = sLayerChange (.obj ms) := by
  show (reqF (jappend ms k v) "new" decodeString).map _ =
    (reqF ms "new" decodeString).map _
  rw [reqF_jappend decodeString h]

theorem sLayerNames_jappend {ms : JObj} {k : String} {v : Json} (h : ¬ k = "names") :
    sLayerNames (.obj (jappend ms k v)) = sLayerNames (.obj ms) := by
  show (reqF (jappend ms k v) "names" decodeStrList).map _ =
    (reqF ms "names" decodeStrList).map _
  rw [reqF_jappend decodeStrList h]

theorem sCurrentLayerInfo_jappend {ms : JObj} {k : String} {v : Json}
    (h1 : ¬ k = "name") (h2 : ¬ k = "cfg_text") :
    sCurrentLayerInfo (.obj (jappend ms k v)) = sCurrentLayerInfo (.obj ms) := by
  show (reqF (jappend ms k v) "name" decodeString).bind _ =
    (reqF ms "name" decodeString).bind _
  rw [reqF_jappend decodeString h1]
  refine obind_congr fun nm => ?_
  show (reqF (jappend ms k v) "cfg_text" decodeString).bind _ =
    (reqF ms "cfg_text" decodeString).bind _
  rw [reqF_jappend decodeString h2]

theorem sConfigFileReload_jappend {ms : JObj} {k : String} {v : Json} (h : ¬ k = "new") :
    sConfigFileReload (.obj (jappend ms k v)) = sConfigFileReload (.obj ms) := by
  show (reqF (jappend ms k v) "new" decodeString).map _ =
    (reqF ms "new" decodeString).map _
  rw [reqF_jappend decodeString h]

theorem sCurrentLayerName_jappend {ms : JObj} {k : String} {v : Json} (h : ¬ k = "name") :
    sCurrentLayerName (.obj (jappend ms k v)) = sCurrentLayerName (.obj ms) := by
  show (reqF (jappend ms k v) "name" decodeString).map _ =
    (reqF ms "name" decodeString).map _
  rw [reqF_jappend decodeString h]

theorem sMessagePush_jappend {ms : JObj} {k : String} {v : Json} (h : ¬ k = "message") :
    sMessagePush (.obj (jappend ms k v)) = sMessagePush (.obj ms) := by
  show (reqF (jappend ms k v) "message" some).map _ =
    (reqF ms "message" some).map _
  rw [reqF_jappend some h]

theorem sError_jappend {ms : JObj} {k : String} {v : Json} (h : ¬ k = "msg") :
    sError (.obj (jappend ms k v)) = sError (.obj ms) := by
  show (reqF (jappend ms k v) "msg" decodeString).map _ =
    (reqF ms "msg" decodeString).map _
  rw [reqF_jappend decodeString h]

theorem sAuthResult_jappend {ms : JObj} {k : String} {v : Json}
    (h1 : ¬ k = "success") (h2 : ¬ k = "session_id") (h3 : ¬ k = "expires_in_seconds") :
    sAuthResult (.obj (jappend ms k v)) = sAuthResult (.obj ms) := by
  show (reqF (jappend ms k v) "success" decodeBool).bind _ =
    (reqF ms "success" decodeBool).bind _
  rw [reqF_jappend decodeBool h1]
  refine obind_congr fun success => ?_
  show (optF (jappend ms k v) "session_id" decodeOptString).bind _ =
    (optF ms "session_id" decodeOptString).bind _
  rw [optF_jappend decodeOptString h2]
  refine obind_congr fun sid => ?_
  rw [optF_jappend decodeOptU64 h3]
/-- Claim C10: the decoders are lenient toward unknown sibling fields:
appending any extra key (not among the variant's declared field names)
to the payload object of an encoded ClientMessage or ServerMessage, or
to the encoded object of a ServerResponse, leaves decoding successful
with the same value, the extra key silently discarded (no
deny_unknown_fields attribute appears in lib.rs). -/
theorem C10_unknown_fields :
    (∀ m : ClientMessage, ∀ p : JObj, toJsonClient m = jobj1 (clientTag m) (.obj p) →
      ∀ k v, k ∉ clientFieldNames m →
        decodeClient (jobj1 (clientTag m) (.obj (jappend p k v))) = some m) ∧
    (∀ m : ServerMessage, ∀ tag : String, ∀ p : JObj, toJsonServer m = jobj1 tag (.obj p) →
      ∀ k v, k ∉ serverFieldNames m →
        decodeServer (jobj1 tag (.obj (jappend p k v))) = some m) ∧
    (∀ r : ServerResponse, ∀ ms : JObj, toJsonResponse r = .obj ms →
      ∀ k v, k ∉ responseFieldNames r →
        decodeResponse (.obj (jappend ms k v)) = some r) := by
  refine ⟨?_, ?_, ?_⟩
  · intro m p hp k v hk
    cases m with
    | Authenticate tok cn =>
        simp only [toJsonClient, clientTag, jobj1, jobjOf, Json.obj.injEq,
          JObj.cons.injEq, true_and, and_true] at hp
        subst hp
        simp only [clientFieldNames, List.mem_cons, List.not_mem_nil, or_false,
          not_or] at hk
        exact (pAuthenticate_jappend hk.1 hk.2).trans (decodeClient_toJson (.Authenticate tok cn))
    | ChangeLayer nw sid =>
        cases sid with
        | none =>
          simp only [toJsonClient, clientTag, jobj1, jobjOf, sidField, Json.obj.injEq,
            JObj.cons.injEq, true_and, and_true] at hp
          subst hp
          simp only [clientFieldNames, List.mem_cons, List.not_mem_nil, or_false,
            not_or] at hk
          exact (pChangeLayer_jappend hk.1 hk.2).trans (decodeClient_toJson (.ChangeLayer nw none))
        | some s =>
          simp only [toJsonClient, clientTag, jobj1, jobjOf, sidField, Json.obj.injEq,
            JObj.cons.injEq, true_and, and_true] at hp
          subst hp
          simp only [clientFieldNames, List.mem_cons, List.not_mem_nil, or_false,
            not_or] at hk
          exact (pChangeLayer_jappend hk.1 hk.2).trans (decodeClient_toJson (.ChangeLayer nw (some s)))
    | RequestLayerNames sid =>
        cases sid with
        | none =>
          simp only [toJsonClient, clientTag, jobj1, jobjOf, sidField, Json.obj.injEq,
            JObj.cons.injEq, true_and, and_true] at hp
          subst hp
          simp only [clientFieldNames, List.mem_cons, List.not_mem_nil, or_false,
            not_or] at hk
          exact (pSidOnly_jappend hk).trans (decodeClient_toJson (.RequestLayerNames none))
        | some s =>
          simp only [toJsonClient, clientTag, jobj1, jobjOf, sidField, Json.obj.injEq,
            JObj.cons.injEq, true_and, and_true] at hp
          subst hp
          simp only [clientFieldNames, List.mem_cons, List.not_mem_nil, or_false,
            not_or] at hk
          exact (pSidOnly_jappend hk).trans (decodeClient_toJson (.RequestLayerNames (some s)))
    | RequestCurrentLayerInfo sid =>
        cases sid with
        | none =>
          simp only [toJsonClient, clientTag, jobj1, jobjOf, sidField, Json.obj.injEq,
            JObj.cons.injEq, true_and, and_true] at hp
          subst hp
          simp only [clientFieldNames, List.mem_cons, List.not_mem_nil, or_false,
            not_or] at hk
          exact (pSidOnly_jappend hk).trans (decodeClient_toJson (.RequestCurrentLayerInfo none))
        | some s =>
          simp only [toJsonClient, clientTag, jobj1, jobjOf, sidField, Json.obj.injEq,
            JObj.cons.injEq, true_and, and_true] at hp
          subst hp
          simp only [clientFieldNames, List.mem_cons, List.not_mem_nil, or_false,
            not_or] at hk
          exact (pSidOnly_jappend hk).trans (decodeClient_toJson (.RequestCurrentLayerInfo (some s)))
    | RequestCurrentLayerName sid =>
        cases sid with
        | none =>
          simp only [toJsonClient, clientTag, jobj1, jobjOf, sidField, Json.obj.injEq,
            JObj.cons.injEq, true_and, and_true] at hp
          subst hp
          simp only [clientFieldNames, List.mem_cons, List.not_mem_nil, or_false,
            not_or] at hk
          exact (pSidOnly_jappend hk).trans (decodeClient_toJson (.RequestCurrentLayerName none))
        | some s =>
          simp only [toJsonClient, clientTag, jobj1, jobjOf, sidField, Json.obj.injEq,
            JObj.cons.injEq, true_and, and_true] at hp
          subst hp
          simp only [clientFieldNames, List.mem_cons, List.not_mem_nil, or_false,
            not_or] at hk
          exact (pSidOnly_jappend hk).trans (decodeClient_toJson (.RequestCurrentLayerName (some s)))
    | ActOnFakeKey nm a sid =>
        cases sid with
        | none =>
          simp only [toJsonClient, clientTag, jobj1, jobjOf, sidField, Json.obj.injEq,
            JObj.cons.injEq, true_and, and_true] at hp
          subst hp
          simp only [clientFieldNames, List.mem_cons, List.not_mem_nil, or_false,
            not_or] at hk
          exact (pActOnFakeKey_jappend hk.1 hk.2.1 hk.2.2).trans (decodeClient_toJson (.ActOnFakeKey nm a none))
        | some s =>
          simp only [toJsonClient, clientTag, jobj1, jobjOf, sidField, Json.obj.injEq,
            JObj.cons.injEq, true_and, and_true] at hp
          subst hp
          simp only [clientFieldNames, List.mem_cons, List.not_mem_nil, or_false,
            not_or] at hk
          exact (pActOnFakeKey_jappend hk.1 hk.2.1 hk.2.2).trans (decodeClient_toJson (.ActOnFakeKey nm a (some s)))
    | SetMouse x y sid =>
        cases sid with
        | none =>
          simp only [toJsonClient, clientTag, jobj1, jobjOf, sidField, Json.obj.injEq,
            JObj.cons.injEq, true_and, and_true] at hp
          subst hp
          simp only [clientFieldNames, List.mem_cons, List.not_mem_nil, or_false,
            not_or] at hk
          exact (pSetMouse_jappend hk.1 hk.2.1 hk.2.2).trans (decodeClient_toJson (.SetMouse x y none))
        | some s =>
          simp only [toJsonClient, clientTag, jobj1, jobjOf, sidField, Json.obj.injEq,
            JObj.cons.injEq, true_and, and_true] at hp
          subst hp
          simp only [clientFieldNames, List.mem_cons, List.not_mem_nil, or_false,
            not_or] at hk
          exact (pSetMouse_jappend hk.1 hk.2.1 hk.2.2).trans (decodeClient_toJson (.SetMouse x y (some s)))
    | Reload sid =>
        cases sid with
        | none =>
          simp only [toJsonClient, clientTag, jobj1, jobjOf, sidField, Json.obj.injEq,
            JObj.cons.injEq, true_and, and_true] at hp
          subst hp
          simp only [clientFieldNames, List.mem_cons, List.not_mem_nil, or_false,
            not_or] at hk
          exact (pSidOnly_jappend hk).trans (decodeClient_toJson (.Reload none))
        | some s =>
          simp only [toJsonClient, clientTag, jobj1, jobjOf, sidField, Json.obj.injEq,
            JObj.cons.injEq, true_and, and_true] at hp
          subst hp
          simp only [clientFieldNames, List.mem_cons, List.not_mem_nil, or_false,
            not_or] at hk
          exact (pSidOnly_jappend hk).trans (decodeClient_toJson (.Reload (some s)))
    | ReloadNext sid =>
        cases sid with
        | none =>
          simp only [toJsonClient, clientTag, jobj1, jobjOf, sidField, Json.obj.injEq,
            JObj.cons.injEq, true_and, and_true] at hp
          subst hp
          simp only [clientFieldNames, List.mem_cons, List.not_mem_nil, or_false,
            not_or] at hk
          exact (pSidOnly_jappend hk).trans (decodeClient_toJson (.ReloadNext none))
        | some s =>
          simp only [toJsonClient, clientTag, jobj1, jobjOf, sidField, Json.obj.injEq,
            JObj.cons.injEq, true_and, and_true] at hp
          subst hp
          simp only [clientFieldNames, List.mem_cons, List.not_mem_nil, or_false,
            not_or] at hk
          exact (pSidOnly_jappend hk).trans (decodeClient_toJson (.ReloadNext (some s)))
    | ReloadPrev sid =>
        cases sid with
        | none =>
          simp only [toJsonClient, clientTag, jobj1, jobjOf, sidField, Json.obj.injEq,
            JObj.cons.injEq, true_and, and_true] at hp
          subst hp
          simp only [clientFieldNames, List.mem_cons, List.not_mem_nil, or_false,
            not_or] at hk
          exact (pSidOnly_jappend hk).trans (decodeClient_toJson (.ReloadPrev none))
        | some s =>
          simp only [toJsonClient, clientTag, jobj1, jobjOf, sidField, Json.obj.injEq,
            JObj.cons.injEq, true_and, and_true] at hp
          subst hp
          simp only [clientFieldNames, List.mem_cons, List.not_mem_nil, or_false,
            not_or] at hk
          exact (pSidOnly_jappend hk).trans (decodeClient_toJson (.ReloadPrev (some s)))
    | ReloadNum i sid =>
        cases sid with
        | none =>
          simp only [toJsonClient, clientTag, jobj1, jobjOf, sidField, Json.obj.injEq,
            JObj.cons.injEq, true_and, and_true] at hp
          subst hp
          simp only [clientFieldNames, List.mem_cons, List.not_mem_nil, or_false,
            not_or] at hk
          exact (pReloadNum_jappend hk.1 hk.2).trans (decodeClient_toJson (.ReloadNum i none))
        | some s =>
          simp only [toJsonClient, clientTag, jobj1, jobjOf, sidField, Json.obj.injEq,
            JObj.cons.injEq, true_and, and_true] at hp
          subst hp
          simp only [clientFieldNames, List.mem_cons, List.not_mem_nil, or_false,
            not_or] at hk
          exact (pReloadNum_jappend hk.1 hk.2).trans (decodeClient_toJson (.ReloadNum i (some s)))
    | ReloadFile pa sid =>
        cases sid with
        | none =>
          simp only [toJsonClient, clientTag, jobj1, jobjOf, sidField, Json.obj.injEq,
            JObj.cons.injEq, true_and, and_true] at hp
          subst hp
          simp only [clientFieldNames, List.mem_cons, List.not_mem_nil, or_false,
            not_or] at hk
          exact (pReloadFile_jappend hk.1 hk.2).trans (decodeClient_toJson (.ReloadFile pa none))
        | some s =>
          simp only [toJsonClient, clientTag, jobj1, jobjOf, sidField, Json.obj.injEq,
            JObj.cons.injEq, true_and, and_true] at hp
          subst hp
          simp only [clientFieldNames, List.mem_cons, List.not_mem_nil, or_false,
            not_or] at hk
          exact (pReloadFile_jappend hk.1 hk.2).trans (decodeClient_toJson (.ReloadFile pa (some s)))
  · intro m tag p hp k v hk
    cases m with
    | LayerChange nw =>
        simp only [toJsonServer, jobj1, jobjOf, Json.obj.injEq, JObj.cons.injEq,
          true_and, and_true] at hp
        obtain ⟨rfl, rfl⟩ := hp
        simp only [serverFieldNames, List.mem_cons, List.not_mem_nil, or_false] at hk
        exact (sLayerChange_jappend hk).trans (decodeServer_toJson (.LayerChange nw))
    | LayerNames ns =>
        simp only [toJsonServer, jobj1, jobjOf, Json.obj.injEq, JObj.cons.injEq,
          true_and, and_true] at hp
        obtain ⟨rfl, rfl⟩ := hp
        simp only [serverFieldNames, List.mem_cons, List.not_mem_nil, or_false] at hk
        exact (sLayerNames_jappend hk).trans (decodeServer_toJson (.LayerNames ns))
    | CurrentLayerInfo nm cfg =>
        simp only [toJsonServer, jobj1, jobjOf, Json.obj.injEq, JObj.cons.injEq,
          true_and, and_true] at hp
        obtain ⟨rfl, rfl⟩ := hp
        simp only [serverFieldNames, List.mem_cons, List.not_mem_nil, or_false,
          not_or] at hk
        exact (sCurrentLayerInfo_jappend hk.1 hk.2).trans (decodeServer_toJson (.CurrentLayerInfo nm cfg))
    | ConfigFileReload nw =>
        simp only [toJsonServer, jobj1, jobjOf, Json.obj.injEq, JObj.cons.injEq,
          true_and, and_true] at hp
        obtain ⟨rfl, rfl⟩ := hp
        simp only [serverFieldNames, List.mem_cons, List.not_mem_nil, or_false] at hk
        exact (sConfigFileReload_jappend hk).trans (decodeServer_toJson (.ConfigFileReload nw))
    | CurrentLayerName nm =>
        simp only [toJsonServer, jobj1, jobjOf, Json.obj.injEq, JObj.cons.injEq,
          true_and, and_true] at hp
        obtain ⟨rfl, rfl⟩ := hp
        simp only [serverFieldNames, List.mem_cons, List.not_mem_nil, or_false] at hk
        exact (sCurrentLayerName_jappend hk).trans (decodeServer_toJson (.CurrentLayerName nm))
    | MessagePush v0 =>
        simp only [toJsonServer, jobj1, jobjOf, Json.obj.injEq, JObj.cons.injEq,
          true_and, and_true] at hp
        obtain ⟨rfl, rfl⟩ := hp
        simp only [serverFieldNames, List.mem_cons, List.not_mem_nil, or_false] at hk
        exact (sMessagePush_jappend hk).trans (decodeServer_toJson (.MessagePush v0))
    | Error msg0 =>
        simp only [toJsonServer, jobj1, jobjOf, Json.obj.injEq, JObj.cons.injEq,
          true_and, and_true] at hp
        obtain ⟨rfl, rfl⟩ := hp
        simp only [serverFieldNames, List.mem_cons, List.not_mem_nil, or_false] at hk
        exact (sError_jappend hk).trans (decodeServer_toJson (.Error msg0))
    | AuthResult success sid exp =>
        simp only [toJsonServer, jobj1, jobjOf, Json.obj.injEq, JObj.cons.injEq,
          true_and, and_true] at hp
        obtain ⟨rfl, rfl⟩ := hp
        simp only [serverFieldNames, List.mem_cons, List.not_mem_nil, or_false,
          not_or] at hk
        exact (sAuthResult_jappend hk.1 hk.2.1 hk.2.2).trans (decodeServer_toJson (.AuthResult success sid exp))
    | AuthRequired =>
        simp only [toJsonServer, jobj1, reduceCtorEq] at hp
    | SessionExpired =>
        simp only [toJsonServer, jobj1, reduceCtorEq] at hp
  · intro r ms hr k v hk
    cases r with
    | Ok =>
        simp only [toJsonResponse, jobjOf, Json.obj.injEq] at hr
        subst hr
        simp only [responseFieldNames, List.mem_cons, List.not_mem_nil, or_false] at hk
        simp [decodeResponse, jappend, fieldOcc, hk]
    | Error msg0 =>
        simp only [toJsonResponse, jobjOf, Json.obj.injEq] at hr
        subst hr
        simp only [responseFieldNames, List.mem_cons, List.not_mem_nil, or_false,
          not_or] at hk
        simp [decodeResponse, jappend, fieldOcc, removeKey, reqF, decodeString,
          hk.1, hk.2]

theorem C10_witness :
    decodeClient (jobj1 (clientTag (.Reload none)) (.obj (jappend .nil "zz" .null))) =
      some (.Reload none) ∧
    decodeResponse (.obj (jappend (jobjOf [("status", .str "Ok")]) "zz" .null)) =
      some .Ok :=
  ⟨C10_unknown_fields.1 (.Reload none) .nil rfl "zz" .null (by decide),
   C10_unknown_fields.2.2 .Ok (jobjOf [("status", .str "Ok")]) rfl "zz" .null (by decide)⟩
